import Mathlib

/-!
Verification of the Voyah Free+ DVR video combiner pipeline
(`voyah_free_plus_dvr_video_combiner.py`, `voyah_free_plus_dvr_front_camera_combiner.py`).

The Python sources are shallowly embedded: each relevant source function is
translated into an executable Lean definition over explicit inputs
(directory listings, probe-oracle results, encoder exit codes), and the
specification claims are settled as theorems about those definitions.
Machine floats from the sources are modelled as rationals; subprocess
results are modelled as explicit outcome values.
-/

namespace Voyah

/-- The single-quote character, used by the concat-list writer. -/
def sq : String := String.singleton (Char.ofNat 39)

/-- One entry of `root.iterdir()`: a file-system name plus whether it is a
directory. -/
structure DirEntry where
  name : String
  isDir : Bool
deriving DecidableEq

/-- Decide whether a character is an ASCII digit (`\d` in the source regexes). -/
def isDigitCh (c : Char) : Bool := 48 ≤ c.toNat && c.toNat ≤ 57

/-- Numeric value of an ASCII digit character. -/
def digitVal (c : Char) : Nat := c.toNat - 48

/-- Two-digit decimal read. -/
def val2 (a b : Char) : Nat := 10 * digitVal a + digitVal b

/-- Four-digit decimal read. -/
def val4 (a b c d : Char) : Nat :=
  1000 * digitVal a + 100 * digitVal b + 10 * digitVal c + digitVal d

/-- `FOLDER_RE`: matches a full name of shape `YYYY-MM-DD_HH-MM-SS` and
returns the `date` and `time` capture groups. -/
def folderRegexMatch (s : String) : Option (String × String) :=
  match s.data with
  | [y1, y2, y3, y4, a1, m1, m2, a2, d1, d2, u, h1, h2, a3, n1, n2, a4, s1, s2] =>
    if isDigitCh y1 && isDigitCh y2 && isDigitCh y3 && isDigitCh y4 &&
        a1 == '-' && isDigitCh m1 && isDigitCh m2 &&
        a2 == '-' && isDigitCh d1 && isDigitCh d2 &&
        u == '_' && isDigitCh h1 && isDigitCh h2 &&
        a3 == '-' && isDigitCh n1 && isDigitCh n2 &&
        a4 == '-' && isDigitCh s1 && isDigitCh s2 then
      some (String.mk [y1, y2, y3, y4, a1, m1, m2, a2, d1, d2],
            String.mk [h1, h2, a3, n1, n2, a4, s1, s2])
    else none
  | _ => none

/-- A parsed wall-clock timestamp (the value of `datetime.strptime` on a
folder name). -/
structure DT where
  year : Nat
  month : Nat
  day : Nat
  hour : Nat
  minute : Nat
  second : Nat
deriving DecidableEq

/-- Gregorian leap-year rule (as used by `datetime`). -/
def isLeapYear (y : Nat) : Bool := (y % 4 == 0 && !(y % 100 == 0)) || y % 400 == 0

/-- Number of days in a month (as validated by `datetime`). -/
def daysInMonth (y m : Nat) : Nat :=
  if m == 2 then (if isLeapYear y then 29 else 28)
  else if m == 4 || m == 6 || m == 9 || m == 11 then 30
  else 31

/-- Validity of field values: `datetime.strptime` raises `ValueError` outside
these ranges (year 1–9999, real calendar day, 24h clock). -/
def dtValid (t : DT) : Bool :=
  1 ≤ t.year && t.year ≤ 9999 &&
  1 ≤ t.month && t.month ≤ 12 &&
  1 ≤ t.day && t.day ≤ daysInMonth t.year t.month &&
  t.hour ≤ 23 && t.minute ≤ 59 && t.second ≤ 59

/-- `parse_dt`: parse `YYYY-MM-DD` and `HH-MM-SS` strings with
`datetime.strptime`; `none` models the `ValueError` raised on an invalid
calendar date or time. -/
def parse_dt (dateS timeS : String) : Option DT :=
  match dateS.data, timeS.data with
  | [y1, y2, y3, y4, a1, m1, m2, a2, d1, d2], [h1, h2, a3, n1, n2, a4, s1, s2] =>
    if isDigitCh y1 && isDigitCh y2 && isDigitCh y3 && isDigitCh y4 &&
        a1 == '-' && isDigitCh m1 && isDigitCh m2 &&
        a2 == '-' && isDigitCh d1 && isDigitCh d2 &&
        isDigitCh h1 && isDigitCh h2 &&
        a3 == '-' && isDigitCh n1 && isDigitCh n2 &&
        a4 == '-' && isDigitCh s1 && isDigitCh s2 then
      let t : DT :=
        { year := val4 y1 y2 y3 y4, month := val2 m1 m2, day := val2 d1 d2,
          hour := val2 h1 h2, minute := val2 n1 n2, second := val2 s1 s2 }
      if dtValid t then some t else none
    else none
  | _, _ => none

/-- Mixed-radix encoding of a timestamp; on valid timestamps it is strictly
monotone in the lexicographic (chronological) order, so comparing keys is
comparing `datetime` values. -/
def dtKey (t : DT) : Nat :=
  ((((t.year * 13 + t.month) * 32 + t.day) * 24 + t.hour) * 60 + t.minute) * 60 + t.second

/-- Chronological key of a folder name, when the name matches `FOLDER_RE`
and parses. -/
def nameKey (n : String) : Option Nat :=
  match folderRegexMatch n with
  | some (ds, ts) => (parse_dt ds ts).map dtKey
  | none => none

/-- Total version of `nameKey` used to state sortedness. -/
def okeyD (n : String) : Nat := (nameKey n).getD 0

/-- `grouped.setdefault(date_s, []).append(v)`: append `v` to the group of
key `k`, creating the group at the end when absent. -/
def upsertGroup (k : String) (v : Nat × String) :
    List (String × List (Nat × String)) → List (String × List (Nat × String))
  | [] => [(k, [v])]
  | (k0, vs) :: rest =>
    if k0 = k then (k0, vs ++ [v]) :: rest
    else (k0, vs) :: upsertGroup k v rest

/-- The scanning loop of `find_date_folders`: walk the directory entries,
group matching directories by their `date` capture; `none` models the
`ValueError` escaping from `parse_dt` on a matching but non-calendar name. -/
def scanEntries : List DirEntry → List (String × List (Nat × String)) →
    Option (List (String × List (Nat × String)))
  | [], acc => some acc
  | e :: rest, acc =>
    if e.isDir then
      match folderRegexMatch e.name with
      | some (dateS, timeS) =>
        match parse_dt dateS timeS with
        | some dt => scanEntries rest (upsertGroup dateS (dtKey dt, e.name) acc)
        | none => none
      | none => scanEntries rest acc
    else scanEntries rest acc

/-- Single step of the (stable) sort used on each date group: insert one
keyed folder into an already-sorted list, ordering by the parsed timestamp. -/
def insByKey (x : Nat × String) : List (Nat × String) → List (Nat × String)
  | [] => [x]
  | y :: ys => if x.1 ≤ y.1 then x :: y :: ys else y :: insByKey x ys

/-- `items.sort(key=lambda x: x[0])`: sort a date group by parsed timestamp. -/
def sortByKey : List (Nat × String) → List (Nat × String)
  | [] => []
  | x :: xs => insByKey x (sortByKey xs)

/-- `find_date_folders`: scan a directory listing for folders matching
`FOLDER_RE`, group by calendar-date string, and sort each group
chronologically. `none` models the unhandled `ValueError` from `parse_dt`. -/
def find_date_folders (entries : List DirEntry) : Option (List (String × List String)) :=
  (scanEntries entries []).map fun groups =>
    groups.map fun g => (g.1, (sortByKey g.2).map Prod.snd)

/-- The keyed pairs contributed to date group `d` by a listing: one pair per
directory entry matching `FOLDER_RE` with date capture `d` that parses. -/
def matchedPairs (d : String) : List DirEntry → List (Nat × String)
  | [] => []
  | e :: rest =>
    (if e.isDir then
      match folderRegexMatch e.name with
      | some (ds, ts) =>
        if ds = d then
          match parse_dt ds ts with
          | some dt => [(dtKey dt, e.name)]
          | none => []
        else []
      | none => []
    else []) ++ matchedPairs d rest

/-- First-match lookup of a date group in the accumulator. -/
def groupList (d : String) : List (String × List (Nat × String)) → List (Nat × String)
  | [] => []
  | (k0, vs) :: rest => if k0 = d then vs else groupList d rest

/-- Keys of the grouped accumulator. -/
def groupKeys (g : List (String × List (Nat × String))) : List String :=
  g.map Prod.fst

theorem upsertGroup_nil (k : String) (v : Nat × String) :
    upsertGroup k v [] = [(k, [v])] := rfl

theorem upsertGroup_cons_eq {k k0 : String} (v : Nat × String)
    {vs : List (Nat × String)} {rest : List (String × List (Nat × String))}
    (h : k0 = k) :
    upsertGroup k v ((k0, vs) :: rest) = (k0, vs ++ [v]) :: rest := by
  simp [upsertGroup, h]

theorem upsertGroup_cons_ne {k k0 : String} (v : Nat × String)
    {vs : List (Nat × String)} {rest : List (String × List (Nat × String))}
    (h : ¬k0 = k) :
    upsertGroup k v ((k0, vs) :: rest) = (k0, vs) :: upsertGroup k v rest := by
  simp [upsertGroup, h]

theorem groupList_upsert (d k : String) (v : Nat × String)
    (g : List (String × List (Nat × String))) :
    groupList d (upsertGroup k v g) =
      if d = k then groupList d g ++ [v] else groupList d g := by
  induction g with
  | nil =>
    rcases eq_or_ne d k with h | h
    · subst h; simp [upsertGroup, groupList]
    · simp [upsertGroup, groupList, h, Ne.symm h]
  | cons p rest ih =>
    obtain ⟨k0, vs⟩ := p
    by_cases hk : k0 = k <;> by_cases hd : k0 = d
    · subst hk; subst hd
      simp [upsertGroup, groupList]
    · subst hk
      simp [upsertGroup, groupList, hd, Ne.symm hd]
    · subst hd
      simp [upsertGroup, groupList, hk, Ne.symm hk]
    · simp [upsertGroup, groupList, hk, hd, ih]

theorem mem_groupKeys_upsert {d k : String} {v : Nat × String}
    {g : List (String × List (Nat × String))} :
    d ∈ groupKeys (upsertGroup k v g) ↔ d = k ∨ d ∈ groupKeys g := by
  induction g with
  | nil =>
    simp [upsertGroup, groupKeys]
  | cons p rest ih =>
    obtain ⟨k0, vs⟩ := p
    by_cases hk : k0 = k
    · rw [upsertGroup_cons_eq v hk]
      subst hk
      simp only [groupKeys, List.map_cons, List.mem_cons] at ih ⊢
      tauto
    · rw [upsertGroup_cons_ne v hk]
      simp only [groupKeys, List.map_cons, List.mem_cons] at ih ⊢
      tauto

theorem nodup_groupKeys_upsert {k : String} {v : Nat × String}
    {g : List (String × List (Nat × String))} (h : (groupKeys g).Nodup) :
    (groupKeys (upsertGroup k v g)).Nodup := by
  induction g with
  | nil => simp [upsertGroup, groupKeys]
  | cons p rest ih =>
    obtain ⟨k0, vs⟩ := p
    simp only [groupKeys, List.map_cons, List.nodup_cons] at h
    by_cases hk : k0 = k
    · subst hk
      simpa [upsertGroup, groupKeys] using h
    · simp only [upsertGroup, hk, if_false, groupKeys, List.map_cons, List.nodup_cons]
      refine ⟨?_, ih h.2⟩
      intro hmem
      rcases mem_groupKeys_upsert.mp hmem with h2 | h2
      · exact hk h2
      · exact h.1 h2

theorem nonempty_groups_upsert {k : String} {v : Nat × String}
    {g : List (String × List (Nat × String))} (h : ∀ p ∈ g, p.2 ≠ []) :
    ∀ p ∈ upsertGroup k v g, p.2 ≠ [] := by
  induction g with
  | nil =>
    intro p hp
    simp only [upsertGroup, List.mem_singleton] at hp
    subst hp
    simp
  | cons q rest ih =>
    obtain ⟨k0, vs⟩ := q
    intro p hp
    by_cases hk : k0 = k
    · rw [upsertGroup_cons_eq v hk] at hp
      rcases List.mem_cons.mp hp with hp1 | hp1
      · subst hp1; simp
      · exact h p (List.mem_cons_of_mem _ hp1)
    · rw [upsertGroup_cons_ne v hk] at hp
      rcases List.mem_cons.mp hp with hp1 | hp1
      · subst hp1
        exact h _ (List.mem_cons_self _ _)
      · exact ih (fun q hq => h q (List.mem_cons_of_mem _ hq)) p hp1

theorem groupList_eq_of_mem {d : String} {vs : List (Nat × String)}
    {g : List (String × List (Nat × String))} (hnd : (groupKeys g).Nodup)
    (h : (d, vs) ∈ g) : groupList d g = vs := by
  induction g with
  | nil => simp at h
  | cons p rest ih =>
    obtain ⟨k0, vs0⟩ := p
    simp only [groupKeys, List.map_cons, List.nodup_cons] at hnd
    rcases List.mem_cons.mp h with h1 | h1
    · injection h1 with ha hb
      subst ha
      subst hb
      simp [groupList]
    · have hd : k0 ≠ d := by
        intro he
        subst he
        exact hnd.1 (List.mem_map.mpr ⟨(k0, vs), h1, rfl⟩)
      simp only [groupList, hd, if_false]
      exact ih hnd.2 h1

theorem mem_of_groupList_ne_nil {d : String}
    {g : List (String × List (Nat × String))} (h : groupList d g ≠ []) :
    (d, groupList d g) ∈ g := by
  induction g with
  | nil => simp [groupList] at h
  | cons p rest ih =>
    obtain ⟨k0, vs0⟩ := p
    by_cases hd : k0 = d
    · subst hd
      simp [groupList]
    · simp only [groupList, hd, if_false] at h ⊢
      exact List.mem_cons_of_mem _ (ih h)

theorem matchedPairs_cons (d : String) (e : DirEntry) (rest : List DirEntry) :
    matchedPairs d (e :: rest) =
      (if e.isDir then
        match folderRegexMatch e.name with
        | some (ds, ts) =>
          if ds = d then
            match parse_dt ds ts with
            | some dt => [(dtKey dt, e.name)]
            | none => []
          else []
        | none => []
      else []) ++ matchedPairs d rest := rfl

theorem scanEntries_groupList {entries : List DirEntry} :
    ∀ {acc g}, scanEntries entries acc = some g → ∀ d,
      groupList d g = groupList d acc ++ matchedPairs d entries := by
  induction entries with
  | nil =>
    intro acc g h d
    simp only [scanEntries, Option.some.injEq] at h
    subst h
    simp [matchedPairs]
  | cons e rest ih =>
    intro acc g h d
    cases hdir : e.isDir with
    | false =>
      simp only [scanEntries, hdir, Bool.false_eq_true, if_false] at h
      rw [ih h d, matchedPairs_cons]
      simp [hdir]
    | true =>
      cases hre : folderRegexMatch e.name with
      | none =>
        simp only [scanEntries, hdir, if_true, hre] at h
        rw [ih h d, matchedPairs_cons]
        simp [hdir, hre]
      | some p =>
        obtain ⟨ds, ts⟩ := p
        cases hp : parse_dt ds ts with
        | none =>
          simp only [scanEntries, hdir, if_true, hre, hp] at h
          exact Option.noConfusion h
        | some dt =>
          simp only [scanEntries, hdir, if_true, hre, hp] at h
          rw [ih h d, groupList_upsert, matchedPairs_cons]
          by_cases hdd : d = ds
          · subst hdd
            simp [hdir, hre, hp, List.append_assoc]
          · have hdd2 : ¬ds = d := fun hh => hdd hh.symm
            simp [hdir, hre, hp, hdd, hdd2]

theorem scanEntries_nodup_keys {entries : List DirEntry} :
    ∀ {acc g}, scanEntries entries acc = some g →
      (groupKeys acc).Nodup → (groupKeys g).Nodup := by
  induction entries with
  | nil =>
    intro acc g h hacc
    simp only [scanEntries, Option.some.injEq] at h
    subst h
    exact hacc
  | cons e rest ih =>
    intro acc g h hacc
    cases hdir : e.isDir with
    | false =>
      simp only [scanEntries, hdir, Bool.false_eq_true, if_false] at h
      exact ih h hacc
    | true =>
      cases hre : folderRegexMatch e.name with
      | none =>
        simp only [scanEntries, hdir, if_true, hre] at h
        exact ih h hacc
      | some p =>
        obtain ⟨ds, ts⟩ := p
        cases hp : parse_dt ds ts with
        | none =>
          simp only [scanEntries, hdir, if_true, hre, hp] at h
          exact Option.noConfusion h
        | some dt =>
          simp only [scanEntries, hdir, if_true, hre, hp] at h
          exact ih h (nodup_groupKeys_upsert hacc)

theorem scanEntries_nonempty {entries : List DirEntry} :
    ∀ {acc g}, scanEntries entries acc = some g →
      (∀ p ∈ acc, p.2 ≠ []) → ∀ p ∈ g, p.2 ≠ [] := by
  induction entries with
  | nil =>
    intro acc g h hacc
    simp only [scanEntries, Option.some.injEq] at h
    subst h
    exact hacc
  | cons e rest ih =>
    intro acc g h hacc
    cases hdir : e.isDir with
    | false =>
      simp only [scanEntries, hdir, Bool.false_eq_true, if_false] at h
      exact ih h hacc
    | true =>
      cases hre : folderRegexMatch e.name with
      | none =>
        simp only [scanEntries, hdir, if_true, hre] at h
        exact ih h hacc
      | some p =>
        obtain ⟨ds, ts⟩ := p
        cases hp : parse_dt ds ts with
        | none =>
          simp only [scanEntries, hdir, if_true, hre, hp] at h
          exact Option.noConfusion h
        | some dt =>
          simp only [scanEntries, hdir, if_true, hre, hp] at h
          exact ih h (nonempty_groups_upsert hacc)

theorem scanEntries_parse_ok {entries : List DirEntry} :
    ∀ {acc g}, scanEntries entries acc = some g →
      ∀ e ∈ entries, e.isDir = true →
        ∀ ds ts, folderRegexMatch e.name = some (ds, ts) → (parse_dt ds ts).isSome := by
  induction entries with
  | nil =>
    intro acc g _ e he
    simp at he
  | cons e0 rest ih =>
    intro acc g h e he hdir ds ts hre
    rcases List.mem_cons.mp he with h1 | h1
    · subst h1
      simp only [scanEntries, hdir, if_true, hre] at h
      cases hp : parse_dt ds ts with
      | none => rw [hp] at h; exact absurd h (by simp)
      | some dt => simp [hp]
    · cases hdir0 : e0.isDir with
      | false =>
        simp only [scanEntries, hdir0, Bool.false_eq_true, if_false] at h
        exact ih h e h1 hdir ds ts hre
      | true =>
        cases hre0 : folderRegexMatch e0.name with
        | none =>
          simp only [scanEntries, hdir0, if_true, hre0] at h
          exact ih h e h1 hdir ds ts hre
        | some p =>
          obtain ⟨ds0, ts0⟩ := p
          cases hp0 : parse_dt ds0 ts0 with
          | none =>
            simp only [scanEntries, hdir0, if_true, hre0, hp0] at h
            exact Option.noConfusion h
          | some dt0 =>
            simp only [scanEntries, hdir0, if_true, hre0, hp0] at h
            exact ih h e h1 hdir ds ts hre

theorem matchedPairs_subset {d : String} {entries : List DirEntry} {p : Nat × String}
    (h : p ∈ matchedPairs d entries) :
    ∃ e ∈ entries, e.isDir = true ∧ e.name = p.2 ∧
      ∃ ts dt, folderRegexMatch e.name = some (d, ts) ∧
        parse_dt d ts = some dt ∧ dtKey dt = p.1 := by
  induction entries with
  | nil => simp [matchedPairs] at h
  | cons e rest ih =>
    rw [matchedPairs_cons] at h
    have step : p ∈ matchedPairs d rest →
        ∃ e2 ∈ e :: rest, e2.isDir = true ∧ e2.name = p.2 ∧
          ∃ ts dt, folderRegexMatch e2.name = some (d, ts) ∧
            parse_dt d ts = some dt ∧ dtKey dt = p.1 := by
      intro hrest
      obtain ⟨e2, he2, rest2⟩ := ih hrest
      exact ⟨e2, List.mem_cons_of_mem _ he2, rest2⟩
    cases hdir : e.isDir with
    | false =>
      rw [hdir] at h
      simp only [Bool.false_eq_true, if_false, List.nil_append] at h
      exact step h
    | true =>
      rw [hdir] at h
      simp only [if_true] at h
      cases hre : folderRegexMatch e.name with
      | none =>
        rw [hre] at h
        simp only [List.nil_append] at h
        exact step h
      | some q =>
        obtain ⟨ds, ts⟩ := q
        rw [hre] at h
        by_cases hds : ds = d
        · subst hds
          simp only [if_pos rfl] at h
          cases hp : parse_dt ds ts with
          | none =>
            rw [hp] at h
            simp only [List.nil_append] at h
            exact step h
          | some dt =>
            rw [hp] at h
            rcases List.mem_append.mp h with h1 | h1
            · rcases List.mem_singleton.mp h1 with rfl
              exact ⟨e, List.mem_cons_self _ _, hdir, rfl, ts, dt, hre, hp, rfl⟩
            · exact step h1
        · simp only [hds, if_false, List.nil_append] at h
          exact step h

theorem matchedPairs_mem_of {d ts : String} {dt : DT} {e : DirEntry}
    {entries : List DirEntry} (he : e ∈ entries) (hdir : e.isDir = true)
    (hre : folderRegexMatch e.name = some (d, ts)) (hp : parse_dt d ts = some dt) :
    (dtKey dt, e.name) ∈ matchedPairs d entries := by
  induction entries with
  | nil => simp at he
  | cons e0 rest ih =>
    rw [matchedPairs_cons]
    rcases List.mem_cons.mp he with h1 | h1
    · subst h1
      rw [hdir, hre]
      simp [hp]
    · exact List.mem_append.mpr (Or.inr (ih h1))

theorem nameKey_of_matchedPairs {d : String} {entries : List DirEntry}
    {p : Nat × String} (h : p ∈ matchedPairs d entries) :
    nameKey p.2 = some p.1 ∧ ∃ ts, folderRegexMatch p.2 = some (d, ts) := by
  obtain ⟨k, n⟩ := p
  obtain ⟨e, _, _, hname, ts, dt, hre, hp, hk⟩ := matchedPairs_subset h
  simp only at hname hk
  subst hname
  constructor
  · simp only [nameKey, hre, hp, Option.map_some]
    exact congrArg some hk
  · exact ⟨ts, hre⟩

theorem matchedPairs_names_sublist (d : String) (entries : List DirEntry) :
    List.Sublist ((matchedPairs d entries).map Prod.snd) (entries.map DirEntry.name) := by
  induction entries with
  | nil => simp [matchedPairs]
  | cons e rest ih =>
    rw [matchedPairs_cons, List.map_append, List.map_cons]
    cases hdir : e.isDir with
    | false =>
      simp only [Bool.false_eq_true, if_false, List.map_nil, List.nil_append]
      exact ih.cons _
    | true =>
      simp only [if_true]
      cases hre : folderRegexMatch e.name with
      | none =>
        simp only [List.map_nil, List.nil_append]
        exact ih.cons _
      | some q =>
        obtain ⟨ds, ts⟩ := q
        by_cases hds : ds = d
        · subst hds
          simp only [if_pos rfl]
          cases hp : parse_dt ds ts with
          | none =>
            simp only [List.map_nil, List.nil_append]
            exact ih.cons _
          | some dt =>
            simp only [List.map_cons, List.map_nil, List.singleton_append]
            exact ih.cons₂ _
        · simp only [hds, if_false, List.map_nil, List.nil_append]
          exact ih.cons _

theorem insByKey_nil (x : Nat × String) : insByKey x [] = [x] := rfl

theorem insByKey_cons (x y : Nat × String) (ys : List (Nat × String)) :
    insByKey x (y :: ys) = if x.1 ≤ y.1 then x :: y :: ys else y :: insByKey x ys := rfl

theorem perm_insByKey (x : Nat × String) (l : List (Nat × String)) :
    List.Perm (insByKey x l) (x :: l) := by
  induction l with
  | nil => simp [insByKey]
  | cons y ys ih =>
    rw [insByKey_cons]
    split
    · exact List.Perm.refl _
    · exact (List.Perm.cons y ih).trans (List.Perm.swap x y ys)

theorem perm_sortByKey (l : List (Nat × String)) : List.Perm (sortByKey l) l := by
  induction l with
  | nil => exact List.Perm.refl _
  | cons x xs ih => exact (perm_insByKey x (sortByKey xs)).trans (List.Perm.cons x ih)

theorem pairwise_insByKey {x : Nat × String} {l : List (Nat × String)}
    (h : l.Pairwise (fun a b => a.1 ≤ b.1)) :
    (insByKey x l).Pairwise (fun a b => a.1 ≤ b.1) := by
  induction l with
  | nil => simp [insByKey]
  | cons y ys ih =>
    rw [insByKey_cons]
    rcases List.pairwise_cons.mp h with ⟨hy, hys⟩
    by_cases hxy : x.1 ≤ y.1
    · rw [if_pos hxy]
      refine List.pairwise_cons.mpr ⟨?_, h⟩
      intro b hb
      rcases List.mem_cons.mp hb with rfl | hb2
      · exact hxy
      · exact le_trans hxy (hy b hb2)
    · rw [if_neg hxy]
      refine List.pairwise_cons.mpr ⟨?_, ih hys⟩
      intro b hb
      have hmem := (perm_insByKey x ys).mem_iff.mp hb
      rcases List.mem_cons.mp hmem with rfl | hb2
      · exact le_of_not_le hxy
      · exact hy b hb2

theorem pairwise_sortByKey (l : List (Nat × String)) :
    (sortByKey l).Pairwise (fun a b => a.1 ≤ b.1) := by
  induction l with
  | nil => simp [sortByKey]
  | cons x xs ih => exact pairwise_insByKey ih

/-- Claim C1: for every root directory listing on which `find_date_folders`
returns (models a scan that does not raise), the returned mapping groups
exactly the directories whose names match `YYYY-MM-DD_HH-MM-SS`: every group
is non-empty and consists of matching directories keyed by their own date
component; non-matching or non-directory entries appear in no group; each
matching directory appears exactly once, under the date parsed from its own
name; and every date group is sorted ascending by the start timestamp parsed
from the folder name. -/
theorem find_date_folders_locator_correct
    (entries : List DirEntry) (out : List (String × List String))
    (hout : find_date_folders entries = some out)
    (hnd : (entries.map DirEntry.name).Nodup) :
    (∀ d ns, (d, ns) ∈ out → ns ≠ [] ∧ ∀ n ∈ ns, ∃ e ∈ entries, e.isDir = true ∧
        e.name = n ∧ ∃ ts, folderRegexMatch n = some (d, ts))
    ∧ (∀ e ∈ entries, (e.isDir = false ∨ folderRegexMatch e.name = none) →
        ∀ d ns, (d, ns) ∈ out → e.name ∉ ns)
    ∧ (∀ e ∈ entries, e.isDir = true → ∀ ds ts, folderRegexMatch e.name = some (ds, ts) →
        (∃ ns, (ds, ns) ∈ out ∧ e.name ∈ ns) ∧
        (∀ d ns, (d, ns) ∈ out → e.name ∈ ns → d = ds) ∧
        (∀ d ns, (d, ns) ∈ out → ns.count e.name ≤ 1))
    ∧ (∀ d ns, (d, ns) ∈ out → (∀ n ∈ ns, (nameKey n).isSome) ∧
        (ns.map okeyD).Pairwise (· ≤ ·)) := by
  rw [find_date_folders] at hout
  obtain ⟨g, hscan, hmapeq⟩ := Option.map_eq_some'.mp hout
  have hkeysnd : (groupKeys g).Nodup := scanEntries_nodup_keys hscan (by simp [groupKeys])
  have hgl : ∀ d, groupList d g = matchedPairs d entries := by
    intro d
    have h2 := scanEntries_groupList hscan d
    simpa [groupList] using h2
  have hne : ∀ p ∈ g, p.2 ≠ [] := scanEntries_nonempty hscan (by simp)
  have hinj : ∀ e1 ∈ entries, ∀ e2 ∈ entries, e1.name = e2.name → e1 = e2 :=
    fun e1 h1 e2 h2 he => List.inj_on_of_nodup_map hnd h1 h2 he
  subst hmapeq
  -- decompose membership in the output
  have hgrp : ∀ {d : String} {ns : List String},
      (d, ns) ∈ g.map (fun q => (q.1, (sortByKey q.2).map Prod.snd)) →
      ns = (sortByKey (matchedPairs d entries)).map Prod.snd ∧
        matchedPairs d entries ≠ [] := by
    intro d ns hm
    obtain ⟨q, hq, heq⟩ := List.mem_map.mp hm
    obtain ⟨qk, qv⟩ := q
    injection heq with h1 h2
    subst h1
    subst h2
    have hv : qv = matchedPairs qk entries := by
      rw [← hgl qk]
      exact (groupList_eq_of_mem hkeysnd hq).symm
    subst hv
    exact ⟨rfl, fun hcon => hne _ hq (by simpa using hcon)⟩
  -- a name in a group comes with its key from `matchedPairs`
  have hname_mem : ∀ {d : String} {ns : List String},
      (d, ns) ∈ g.map (fun q => (q.1, (sortByKey q.2).map Prod.snd)) →
      ∀ {n : String}, n ∈ ns → ∃ k, (k, n) ∈ matchedPairs d entries := by
    intro d ns hm n hn
    obtain ⟨hns, -⟩ := hgrp hm
    subst hns
    obtain ⟨p, hp, hpn⟩ := List.mem_map.mp hn
    have hpv : p ∈ matchedPairs d entries :=
      (perm_sortByKey (matchedPairs d entries)).subset hp
    exact ⟨p.1, by rw [← hpn]; exact hpv⟩
  refine ⟨?_, ?_, ?_, ?_⟩
  · -- (i) groups are nonempty and hold matching directories under their date
    intro d ns hm
    obtain ⟨hns, hmp⟩ := hgrp hm
    constructor
    · subst hns
      intro hcon
      have h0 : sortByKey (matchedPairs d entries) = [] := List.map_eq_nil_iff.mp hcon
      have hperm0 : List.Perm [] (matchedPairs d entries) := h0 ▸ perm_sortByKey _
      exact hmp hperm0.symm.eq_nil
    · intro n hn
      obtain ⟨k, hk⟩ := hname_mem hm hn
      obtain ⟨e, he, hdir, hnamee, ts, dt, hre, hp, -⟩ := matchedPairs_subset hk
      have hn2 : e.name = n := hnamee
      refine ⟨e, he, hdir, hn2, ts, ?_⟩
      rw [← hn2]
      exact hre
  · -- (ii) non-matching entries are in no group
    intro e he hbad d ns hm hmem
    obtain ⟨k, hk⟩ := hname_mem hm hmem
    obtain ⟨e2, he2, hdir2, hname2, ts, dt, hre2, -, -⟩ := matchedPairs_subset hk
    have hee : e2 = e := hinj e2 he2 e he hname2
    subst hee
    rcases hbad with hbad | hbad
    · rw [hdir2] at hbad
      exact Bool.noConfusion hbad
    · rw [hre2] at hbad
      exact Option.noConfusion hbad
  · -- (iii) each matching directory appears exactly once, under its own date
    intro e he hdir ds ts hre
    have hps := scanEntries_parse_ok hscan e he hdir ds ts hre
    obtain ⟨dt, hp⟩ := Option.isSome_iff_exists.mp hps
    have hpairmem : (dtKey dt, e.name) ∈ matchedPairs ds entries :=
      matchedPairs_mem_of he hdir hre hp
    refine ⟨?_, ?_, ?_⟩
    · -- existence
      have hnn : matchedPairs ds entries ≠ [] := List.ne_nil_of_mem hpairmem
      have hgln : groupList ds g ≠ [] := by rw [hgl ds]; exact hnn
      have hgmem : (ds, groupList ds g) ∈ g := mem_of_groupList_ne_nil hgln
      refine ⟨(sortByKey (groupList ds g)).map Prod.snd,
        List.mem_map.mpr ⟨(ds, groupList ds g), hgmem, rfl⟩, ?_⟩
      have hsk : (dtKey dt, e.name) ∈ sortByKey (groupList ds g) := by
        rw [hgl ds]
        exact ((perm_sortByKey (matchedPairs ds entries)).mem_iff).mpr hpairmem
      exact List.mem_map.mpr ⟨(dtKey dt, e.name), hsk, rfl⟩
    · -- the date is determined by the name
      intro d ns hm hmem
      obtain ⟨k, hk⟩ := hname_mem hm hmem
      obtain ⟨e2, he2, -, hname2, ts2, dt2, hre2, -, -⟩ := matchedPairs_subset hk
      have hee : e2 = e := hinj e2 he2 e he hname2
      subst hee
      rw [hre] at hre2
      injection hre2 with hpair
      injection hpair with h1 h2
      exact h1.symm
    · -- within any group the name occurs at most once
      intro d ns hm
      obtain ⟨hns, -⟩ := hgrp hm
      subst hns
      have hperm : List.Perm ((sortByKey (matchedPairs d entries)).map Prod.snd)
          ((matchedPairs d entries).map Prod.snd) :=
        (perm_sortByKey (matchedPairs d entries)).map Prod.snd
      have hnd2 : ((matchedPairs d entries).map Prod.snd).Nodup :=
        hnd.sublist (matchedPairs_names_sublist d entries)
      have hnd3 := hperm.nodup_iff.mpr hnd2
      exact List.nodup_iff_count_le_one.mp hnd3 e.name
  · -- (iv) each group is chronologically sorted
    intro d ns hm
    obtain ⟨hns, -⟩ := hgrp hm
    subst hns
    constructor
    · intro n hn
      obtain ⟨p, hp, hpn⟩ := List.mem_map.mp hn
      have hpv : p ∈ matchedPairs d entries :=
        (perm_sortByKey (matchedPairs d entries)).subset hp
      obtain ⟨hkey, -⟩ := nameKey_of_matchedPairs hpv
      rw [← hpn, hkey]
      rfl
    · have hcongr : ((sortByKey (matchedPairs d entries)).map Prod.snd).map okeyD =
          (sortByKey (matchedPairs d entries)).map Prod.fst := by
        rw [List.map_map]
        refine List.map_congr_left ?_
        intro p hp
        have hpv : p ∈ matchedPairs d entries :=
          (perm_sortByKey (matchedPairs d entries)).subset hp
        obtain ⟨hkey, -⟩ := nameKey_of_matchedPairs hpv
        simp [Function.comp, okeyD, hkey]
      rw [hcongr]
      exact List.pairwise_map.mpr (pairwise_sortByKey (matchedPairs d entries))

/-- Concrete-input witness for `find_date_folders_locator_correct`: a sample
listing with two dates, an out-of-pattern file, and unsorted discovery order. -/
theorem find_date_folders_locator_witness :
    find_date_folders
        [⟨"2025-11-17_14-25-37", true⟩, ⟨"2025-11-17_09-00-00", true⟩,
         ⟨"notes.txt", false⟩, ⟨"2025-11-18_10-00-00", true⟩] =
      some [("2025-11-17", ["2025-11-17_09-00-00", "2025-11-17_14-25-37"]),
            ("2025-11-18", ["2025-11-18_10-00-00"])] ∧
    "notes.txt" ∉ ["2025-11-17_09-00-00", "2025-11-17_14-25-37"] := by
  refine ⟨by decide, ?_⟩
  exact (find_date_folders_locator_correct
      [⟨"2025-11-17_14-25-37", true⟩, ⟨"2025-11-17_09-00-00", true⟩,
       ⟨"notes.txt", false⟩, ⟨"2025-11-18_10-00-00", true⟩]
      [("2025-11-17", ["2025-11-17_09-00-00", "2025-11-17_14-25-37"]),
       ("2025-11-18", ["2025-11-18_10-00-00"])]
      (by decide) (by decide)).2.1
    ⟨"notes.txt", false⟩ (by decide) (Or.inl rfl) "2025-11-17"
    ["2025-11-17_09-00-00", "2025-11-17_14-25-37"] (by decide)

/-! ### Date Assembler: `write_concat_list` -/

/-- `"\n".join(lines)`. -/
def joinNl : List String → String
  | [] => ""
  | [a] => a
  | a :: b :: rest => a ++ "\n" ++ joinNl (b :: rest)

/-- `s.replace(single-quote, quote-backslash-quote-quote)` on the character
list of a resolved path (the escaping done by `write_concat_list`). -/
def escapeQuoteChars : List Char → List Char
  | [] => []
  | c :: cs =>
    if c = Char.ofNat 39 then
      Char.ofNat 39 :: '\\' :: Char.ofNat 39 :: Char.ofNat 39 :: escapeQuoteChars cs
    else c :: escapeQuoteChars cs

/-- String form of the quote escaping. -/
def escapeQuotes (s : String) : String := String.mk (escapeQuoteChars s.data)

/-- One manifest line, `file '<escaped resolved path>'`. -/
def concatLine (resolved : String) : String :=
  "file " ++ sq ++ escapeQuotes resolved ++ sq

/-- The `lines` list built by `write_concat_list`, given the path-resolution
collaborator `resolve` (modelling `Path.resolve()`). -/
def write_concat_list_lines (resolve : String → String) (paths : List String) :
    List String :=
  paths.map fun p => concatLine (resolve p)

/-- The full text written by `write_concat_list`:
`"\n".join(lines) + "\n"`. -/
def write_concat_list_text (resolve : String → String) (paths : List String) : String :=
  joinNl (write_concat_list_lines resolve paths) ++ "\n"

/-- Split a character list at newlines (the inverse used to count the lines
of a written manifest). -/
def splitNlChars : List Char → List (List Char)
  | [] => [[]]
  | c :: cs =>
    if c = '\n' then [] :: splitNlChars cs
    else
      match splitNlChars cs with
      | l :: ls => (c :: l) :: ls
      | [] => [[c]]

/-- The lines of a newline-terminated text (the final empty segment after the
terminating newline is not a line). -/
def textLines (s : String) : List String :=
  ((splitNlChars s.data).dropLast).map String.mk

theorem splitNlChars_cons (c : Char) (cs : List Char) :
    splitNlChars (c :: cs) =
      if c = '\n' then [] :: splitNlChars cs
      else
        match splitNlChars cs with
        | l :: ls => (c :: l) :: ls
        | [] => [[c]] := rfl

theorem splitNlChars_ne_nil (l : List Char) : splitNlChars l ≠ [] := by
  cases l with
  | nil => simp [splitNlChars]
  | cons c cs =>
    rw [splitNlChars_cons]
    by_cases h : c = '\n'
    · simp [h]
    · rw [if_neg h]
      cases hs : splitNlChars cs with
      | nil => simp
      | cons a as => simp

theorem splitNlChars_append (a r : List Char) (h : '\n' ∉ a) :
    splitNlChars (a ++ '\n' :: r) = a :: splitNlChars r := by
  induction a with
  | nil => simp [splitNlChars]
  | cons c cs ih =>
    have hc : ¬c = '\n' := fun hh => h (hh ▸ List.mem_cons_self c cs)
    have hcs : '\n' ∉ cs := fun hh => h (List.mem_cons_of_mem c hh)
    rw [List.cons_append, splitNlChars_cons, if_neg hc, ih hcs]

theorem splitNlChars_no_nl (a : List Char) (h : '\n' ∉ a) :
    splitNlChars a = [a] := by
  induction a with
  | nil => simp [splitNlChars]
  | cons c cs ih =>
    have hc : ¬c = '\n' := fun hh => h (hh ▸ List.mem_cons_self c cs)
    have hcs : '\n' ∉ cs := fun hh => h (List.mem_cons_of_mem c hh)
    rw [splitNlChars_cons, if_neg hc, ih hcs]

theorem string_data_append (s t : String) : (s ++ t).data = s.data ++ t.data := by
  cases s
  cases t
  rfl

theorem string_mk_data (s : String) : String.mk s.data = s := by
  cases s
  rfl

theorem escapeQuoteChars_no_nl {l : List Char} (h : '\n' ∉ l) :
    '\n' ∉ escapeQuoteChars l := by
  induction l with
  | nil => simp [escapeQuoteChars]
  | cons c cs ih =>
    have hc : ¬c = '\n' := fun hh => h (hh ▸ List.mem_cons_self c cs)
    have hcs : '\n' ∉ cs := fun hh => h (List.mem_cons_of_mem c hh)
    rw [escapeQuoteChars]
    by_cases h39 : c = Char.ofNat 39
    · rw [if_pos h39]
      intro hmem
      rcases List.mem_cons.mp hmem with he | hmem
      · exact absurd he (by decide)
      rcases List.mem_cons.mp hmem with he | hmem
      · exact absurd he (by decide)
      rcases List.mem_cons.mp hmem with he | hmem
      · exact absurd he (by decide)
      rcases List.mem_cons.mp hmem with he | hmem
      · exact absurd he (by decide)
      exact ih hcs hmem
    · rw [if_neg h39]
      intro hmem
      rcases List.mem_cons.mp hmem with he | hmem
      · exact hc he.symm
      · exact ih hcs hmem

theorem textLines_join (lines : List String) (h : ∀ l ∈ lines, '\n' ∉ l.data)
    (hne : lines ≠ []) : textLines (joinNl lines ++ "\n") = lines := by
  induction lines with
  | nil => exact absurd rfl hne
  | cons a rest ih =>
    cases rest with
    | nil =>
      have ha : '\n' ∉ a.data := h a (List.mem_cons_self a [])
      rw [textLines, string_data_append, joinNl]
      have hnl : ("\n" : String).data = ['\n'] := rfl
      rw [hnl, show a.data ++ ['\n'] = a.data ++ '\n' :: [] from rfl,
        splitNlChars_append a.data [] ha]
      simp [splitNlChars, string_mk_data]
    | cons b rest2 =>
      have ha : '\n' ∉ a.data := h a (List.mem_cons_self a _)
      have hrest : ∀ l ∈ b :: rest2, '\n' ∉ l.data :=
        fun l hl => h l (List.mem_cons_of_mem a hl)
      have ihr := ih hrest (by simp)
      rw [textLines, joinNl, string_data_append, string_data_append,
        string_data_append]
      have hnl : ("\n" : String).data = ['\n'] := rfl
      rw [hnl, List.append_assoc, List.append_assoc]
      rw [show (['\n'] : List Char) ++ ((joinNl (b :: rest2)).data ++ ("\n" : String).data) =
          '\n' :: ((joinNl (b :: rest2)).data ++ ("\n" : String).data) from rfl]
      rw [splitNlChars_append a.data _ ha]
      rw [textLines, string_data_append, hnl] at ihr
      have hsne := splitNlChars_ne_nil ((joinNl (b :: rest2)).data ++ ['\n'])
      obtain ⟨l0, ls, hls⟩ := List.exists_cons_of_ne_nil hsne
      rw [show ((joinNl (b :: rest2)).data ++ ("\n" : String).data) =
          ((joinNl (b :: rest2)).data ++ ['\n']) from rfl, hls] at ihr ⊢
      rw [List.dropLast_cons₂, List.map_cons, string_mk_data, ihr]

/-- Counterexample to Claim C2 as stated, at two inputs: with zero paths the
written manifest is one blank line, not zero lines; and a resolved path
containing a newline splits its manifest entry into two lines. -/
theorem write_concat_list_counterexample :
    (textLines (write_concat_list_text (fun p => p) [])).length ≠ 0 ∧
    (textLines (write_concat_list_text (fun p => p) ["/a\nb"])).length ≠ 1 := by
  constructor
  · decide
  · decide

/-- Claim C2 (amended): for every non-empty list of segment output paths whose
resolved forms contain no newline, `write_concat_list` writes a manifest of
exactly N newline-terminated lines preserving the input order, the i-th being
`file '<resolved i-th path>'` with every single quote escaped. -/
theorem write_concat_list_manifest (resolve : String → String) (paths : List String)
    (hne : paths ≠ [])
    (hnl : ∀ p ∈ paths, '\n' ∉ (resolve p).data) :
    textLines (write_concat_list_text resolve paths) =
      paths.map (fun p => concatLine (resolve p)) ∧
    (textLines (write_concat_list_text resolve paths)).length = paths.length := by
  have hlines : ∀ l ∈ write_concat_list_lines resolve paths, '\n' ∉ l.data := by
    intro l hl
    obtain ⟨p, hp, hlp⟩ := List.mem_map.mp hl
    subst hlp
    intro hmem
    rw [concatLine, string_data_append, string_data_append, string_data_append] at hmem
    rcases List.mem_append.mp hmem with hmem | hmem
    · rcases List.mem_append.mp hmem with hmem | hmem
      · rcases List.mem_append.mp hmem with hmem | hmem
        · exact absurd hmem (by decide)
        · exact absurd hmem (by decide)
      · exact escapeQuoteChars_no_nl (hnl p hp) hmem
    · exact absurd hmem (by decide)
  have hlne : write_concat_list_lines resolve paths ≠ [] := by
    rw [write_concat_list_lines]
    intro hcon
    exact hne (List.map_eq_nil_iff.mp hcon)
  constructor
  · rw [write_concat_list_text, textLines_join _ hlines hlne, write_concat_list_lines]
  · rw [write_concat_list_text, textLines_join _ hlines hlne, write_concat_list_lines,
      List.length_map]

/-- Concrete-input witness for `write_concat_list_manifest`: two paths, one
containing a single quote. -/
theorem write_concat_list_manifest_witness :
    (["/out/seg_a.mp4", "/out/it" ++ sq ++ "s.mp4"] ≠ ([] : List String)) ∧
    textLines (write_concat_list_text (fun p => p)
        ["/out/seg_a.mp4", "/out/it" ++ sq ++ "s.mp4"]) =
      ["/out/seg_a.mp4", "/out/it" ++ sq ++ "s.mp4"].map (fun p => concatLine p) := by
  refine ⟨by decide, ?_⟩
  exact (write_concat_list_manifest (fun p => p)
    ["/out/seg_a.mp4", "/out/it" ++ sq ++ "s.mp4"] (by decide) (by decide)).1

/-! ### Configuration constants shared by the pipeline scripts -/

def OUTPUT_FPS : Nat := 30

def CRF : Nat := 20

def PRESET : String := "veryfast"

def TILE_W : Nat := 1920

def TILE_H : Nat := 1080

def TIMESTAMP_SHIFT_HOURS : Int := -5

def DRAW_TIMESTAMP : Bool := true

def TIMESTAMP_FONTFILE : Option String := none

def TIMESTAMP_FONT_FALLBACK_NAME : String := "Arial"

def TIMESTAMP_FONT_SIZE : Nat := 100

def TIMESTAMP_PADDING_Y : Nat := 24

def TIMESTAMP_BOX : Bool := true

def TIMESTAMP_BOX_BORDER : Nat := 0

/-- Rendered form of the float constant `TIMESTAMP_BOX_OPACITY = 0.35` as it
appears in the generated filter text. -/
def TIMESTAMP_BOX_OPACITY_STR : String := "0.35"

def FFMPEG : String := "ffmpeg"

def FFMPEG_LOGLEVEL : String := "info"

def HEARTBEAT_SEC : ℚ := 10

def TTY_MIN_INTERVAL_SEC : ℚ := mkRat 1 2

def NON_TTY_MIN_INTERVAL_SEC : ℚ := 3

def NON_TTY_MIN_PCT_STEP : ℚ := 3

def CROP_BOTTOM_PX : Nat := 170

/-! ### Process Progress Monitor: `run_live` -/

/-- Python whitespace as stripped by `str.strip()` (ASCII subset). -/
def isPySpace (c : Char) : Bool :=
  c == ' ' || c == '\t' || c == '\n' || c == '\r' || c == Char.ofNat 11 || c == Char.ofNat 12

/-- `str.strip()`. -/
def pyStrip (s : String) : String :=
  String.mk (((s.data.dropWhile isPySpace).reverse.dropWhile isPySpace).reverse)

/-- `line.split("=", 1)`: split at the first `=`, `none` when absent. -/
def splitEq : List Char → Option (List Char × List Char)
  | [] => none
  | c :: cs =>
    if c = '=' then some ([], cs)
    else (splitEq cs).map fun p => (c :: p.1, p.2)

/-- `parse_ffmpeg_kv_progress`: strip the line, require an `=`, split once,
and strip both halves. -/
def parse_ffmpeg_kv_progress (line : String) : Option (String × String) :=
  let t := pyStrip line
  if t.data = [] then none
  else
    match splitEq t.data with
    | some (k, v) => some (pyStrip (String.mk k), pyStrip (String.mk v))
    | none => none

/-- All-digit numeral value. -/
def digitsVal : List Char → Option Nat
  | [] => none
  | l =>
    if l.all isDigitCh then
      some (l.foldl (fun acc c => 10 * acc + digitVal c) 0)
    else none

/-- `int(v)` on an optionally signed decimal numeral. -/
def pyInt (s : String) : Option Int :=
  match s.data with
  | '-' :: rest => (digitsVal rest).map fun n => -(n : Int)
  | '+' :: rest => (digitsVal rest).map fun n => (n : Int)
  | l => (digitsVal l).map fun n => (n : Int)

/-- Split a character list at every occurrence of a separator. -/
def splitOnCh (sep : Char) : List Char → List (List Char)
  | [] => [[]]
  | c :: cs =>
    if c = sep then [] :: splitOnCh sep cs
    else
      match splitOnCh sep cs with
      | l :: ls => (c :: l) :: ls
      | [] => [[c]]

/-- `float(v)` on the `SS.ffffff` numerals of the progress protocol
(unsigned decimal with optional fraction). -/
def pyFloatQ (s : String) : Option ℚ :=
  match splitOnCh '.' s.data with
  | [ip] => (digitsVal ip).map fun n => (n : ℚ)
  | [ip, fp] =>
    if ip = [] && fp = [] then none
    else
      let ipv := if ip = [] then some 0 else digitsVal ip
      let fpv := if fp = [] then some 0 else digitsVal fp
      match ipv, fpv with
      | some i, some f => some ((i : ℚ) + (f : ℚ) / ((10 : ℚ) ^ fp.length))
      | _, _ => none
  | _ => none

/-- ASCII lower-casing of one character (`str.lower()` on the ASCII
diagnostics emitted by the encoder). -/
def lowerCh (c : Char) : Char :=
  if 65 ≤ c.toNat && c.toNat ≤ 90 then Char.ofNat (c.toNat + 32) else c

/-- ASCII `str.lower()`. -/
def lowercase (s : String) : String := String.mk (s.data.map lowerCh)

/-- Substring test (`needle in haystack`). -/
def containsSub (needle : List Char) : List Char → Bool
  | [] => List.isPrefixOf needle []
  | c :: cs => List.isPrefixOf needle (c :: cs) || containsSub needle cs

/-- The percentage update performed inside `maybe_print`
(`run_live`, lines 272–274): recompute `file_pct` only when an elapsed
output-time reading and a truthy positive `duration_sec` are both present,
clamping `out_time / duration * 100` to `[0, 100]`; otherwise the previous
value is kept (initially `None`, reported as unknown). -/
def computePct (outTime durationSec : Option ℚ) (prev : Option ℚ) : Option ℚ :=
  match outTime, durationSec with
  | some t, some d => if 0 < d then some (max 0 (min 100 (t / d * 100))) else prev
  | _, _ => prev

/-- Mutable state of one `run_live` invocation's read loop. -/
structure MonState where
  lastOutput : ℚ
  lastPrintTs : ℚ
  lastPrintedPct : ℚ
  outTime : Option ℚ
  filePct : Option ℚ
  sawProgress : Bool
deriving DecidableEq

/-- Observable actions of the monitor. `killProcess` is in the action
vocabulary so that "the monitor never kills the process" is expressible;
the step functions below are the only producers of actions. -/
inductive MonAction where
  | emitStatus (filePct : Option ℚ) (outTime : Option ℚ)
  | stillRunningNotice
  | diagnostic (line : String)
  | killProcess
deriving DecidableEq

/-- `maybe_print`: throttled status emission. Mirrors the source: an
interval gate (bypassed when forced), the percentage update, a non-TTY
minimum-percent-step gate (bypassed when forced), then the print, which
records the print time and the printed percentage. -/
def maybe_print (tty : Bool) (durationSec : Option ℚ) (now : ℚ) (force : Bool)
    (s : MonState) : MonState × List MonAction :=
  let minInterval := if tty then TTY_MIN_INTERVAL_SEC else NON_TTY_MIN_INTERVAL_SEC
  if ¬force ∧ now - s.lastPrintTs < minInterval then (s, [])
  else
    let fp := computePct s.outTime durationSec s.filePct
    if ¬tty ∧ ¬force ∧ fp.isSome ∧ fp.getD 0 - s.lastPrintedPct < NON_TTY_MIN_PCT_STEP then
      ({ s with filePct := fp }, [])
    else
      ({ s with
          filePct := fp, lastPrintTs := now,
          lastPrintedPct := if fp.isSome then fp.getD 0 else s.lastPrintedPct },
       [MonAction.emitStatus fp s.outTime])

/-- One pass of `run_live`'s read loop when `readline` returned no data
(`run_live`, lines 340–350): break if the process has exited; otherwise,
if nothing was seen for `HEARTBEAT_SEC`, force a status emission, print the
"still running" notice and reset the idle timer; else just sleep. The third
component is the loop-break flag. -/
def monitor_idle_step (tty : Bool) (durationSec : Option ℚ) (now : ℚ)
    (processAlive : Bool) (s : MonState) : MonState × List MonAction × Bool :=
  if ¬processAlive then (s, [], true)
  else if HEARTBEAT_SEC ≤ now - s.lastOutput then
    let r := maybe_print tty durationSec now true s
    ({ r.1 with lastOutput := now }, r.2 ++ [MonAction.stillRunningNotice], false)
  else (s, [], false)

/-- `parts = v.split(":"); hh*3600 + mm*60 + ss` for the fallback
`out_time` timecode field. -/
def parseOutTime (v : String) : Option ℚ :=
  let parts := splitOnCh ':' v.data
  match parts with
  | p0 :: p1 :: p2 :: _ =>
    match pyInt (String.mk p0), pyInt (String.mk p1), pyFloatQ (String.mk p2) with
    | some hh, some mm, some ss => some ((hh : ℚ) * 3600 + (mm : ℚ) * 60 + ss)
    | _, _, _ => none
  | _ => none

/-- One pass of `run_live`'s read loop on a received diagnostic line
(`run_live`, lines 294–338): update the idle timer; protocol `key=value`
lines update timing state and may trigger a throttled emission; other lines
are surfaced only when they contain a severity marker. -/
def monitor_line_step (tty : Bool) (durationSec : Option ℚ) (now : ℚ)
    (line : String) (s0 : MonState) : MonState × List MonAction :=
  let s := { s0 with lastOutput := now }
  match parse_ffmpeg_kv_progress line with
  | some (k, v) =>
    let s := { s with sawProgress := true }
    if k = "out_time_ms" then
      let s :=
        match pyInt v with
        | some n => { s with outTime := some ((n : ℚ) / 1000000) }
        | none => s
      maybe_print tty durationSec now false s
    else if k = "out_time" then
      if s.outTime = none then
        let s :=
          match parseOutTime v with
          | some q => { s with outTime := some q }
          | none => s
        maybe_print tty durationSec now false s
      else (s, [])
    else if k = "progress" then
      if v = "end" ∧ tty then maybe_print tty durationSec now true s else (s, [])
    else (s, [])
  | none =>
    let t := pyStrip line
    if t.data = [] then (s, [])
    else
      let low := lowercase t
      if containsSub "error".data low.data || containsSub "invalid".data low.data ||
          containsSub "warning".data low.data || containsSub "fontconfig".data low.data then
        (s, [MonAction.diagnostic t])
      else (s, [])

/-- The error object raised on abnormal encoder exit
(`subprocess.CalledProcessError(rc, cmd)`), carrying the exit code and the
full invocation. -/
structure CalledProcessError where
  returncode : Int
  cmd : List String
deriving DecidableEq

/-- Exit handling of `run_live` (lines 352–362): after the loop, a non-zero
exit code with `check` enabled raises `CalledProcessError(rc, cmd)`;
otherwise the exit code is returned. -/
def run_live_exit (check : Bool) (cmd : List String) (rc : Int) :
    Except CalledProcessError Int :=
  if check ∧ rc ≠ 0 then Except.error ⟨rc, cmd⟩ else Except.ok rc

/-- The sequential per-segment encode loop of `main`: each command is run
once with `check=True`; an error aborts the remaining work (the raised
exception propagates; nothing is retried). Returns the number of completed
runs. -/
def runJobs (encoder : List String → Int) : List (List String) →
    Except CalledProcessError Nat
  | [] => Except.ok 0
  | cmd :: rest =>
    match run_live_exit true cmd (encoder cmd) with
    | Except.error e => Except.error e
    | Except.ok _ => (runJobs encoder rest).map (· + 1)

/-- Claim C6: within one encoder run, the file percentage is computed only
when both an elapsed output-time reading and a known positive total duration
are available, in which case it equals `clamp(elapsed/total, 0, 1) * 100`
and lies in `[0, 100]`; it is monotone in non-decreasing elapsed readings,
recomputation from the same inputs is idempotent, and absent a known
duration the previous (initially unknown) value is kept. -/
theorem run_live_percentage_properties :
    (∀ d prev, computePct none d prev = prev) ∧
    (∀ t prev, computePct t none prev = prev) ∧
    (∀ t d prev, ¬0 < d → computePct (some t) (some d) prev = prev) ∧
    (∀ t d prev, 0 < d → computePct (some t) (some d) prev =
        some (max 0 (min 100 (t / d * 100)))) ∧
    (∀ t d prev x, 0 < d → computePct (some t) (some d) prev = some x →
        0 ≤ x ∧ x ≤ 100) ∧
    (∀ t1 t2 d prev1 prev2 x1 x2, 0 < d → t1 ≤ t2 →
        computePct (some t1) (some d) prev1 = some x1 →
        computePct (some t2) (some d) prev2 = some x2 → x1 ≤ x2) ∧
    (∀ t d prev, computePct t d (computePct t d prev) = computePct t d prev) := by
  have hval : ∀ (t d : ℚ) (prev : Option ℚ), 0 < d →
      computePct (some t) (some d) prev = some (max 0 (min 100 (t / d * 100))) := by
    intro t d prev h
    simp [computePct, h]
  refine ⟨?_, ?_, ?_, hval, ?_, ?_, ?_⟩
  · intro d prev
    cases d <;> rfl
  · intro t prev
    cases t <;> rfl
  · intro t d prev h
    simp [computePct, h]
  · intro t d prev x h hx
    rw [hval t d prev h] at hx
    injection hx with hx
    subst hx
    refine ⟨le_max_left 0 _, max_le (by norm_num) (min_le_left _ _)⟩
  · intro t1 t2 d prev1 prev2 x1 x2 hd ht h1 h2
    rw [hval t1 d prev1 hd] at h1
    rw [hval t2 d prev2 hd] at h2
    injection h1 with h1
    injection h2 with h2
    subst h1
    subst h2
    have hdiv : t1 / d ≤ t2 / d := by
      apply div_le_div_of_nonneg_right ht hd.le
    have hmul : t1 / d * 100 ≤ t2 / d * 100 :=
      mul_le_mul_of_nonneg_right hdiv (by norm_num)
    exact max_le_max le_rfl (min_le_min le_rfl hmul)
  · intro t d prev
    cases t with
    | none => rfl
    | some t0 =>
      cases d with
      | none => rfl
      | some d0 =>
        by_cases hd : 0 < d0
        · simp [computePct, hd]
        · simp [computePct, hd]

/-- Concrete-input witness for `run_live_percentage_properties`. -/
theorem run_live_percentage_witness :
    computePct (some 0) (some 60) none = some (max 0 (min 100 (0 / 60 * 100))) ∧
    computePct (some 30) none none = none :=
  ⟨run_live_percentage_properties.2.2.2.1 0 60 none (by decide),
   run_live_percentage_properties.2.1 (some 30) none⟩

/-- Claim C7: a non-zero encoder exit code with checking enabled makes
`run_live` raise `CalledProcessError` carrying the exit code and the full
invocation; a zero exit code returns normally; and in the sequential encode
loop a failing command aborts the run with that error regardless of the
remaining segments (no retry, no continuation). -/
theorem run_live_failure_propagation :
    (∀ cmd rc, rc ≠ 0 → run_live_exit true cmd rc = Except.error ⟨rc, cmd⟩) ∧
    (∀ check cmd, run_live_exit check cmd 0 = Except.ok 0) ∧
    (∀ cmd rc e, run_live_exit true cmd rc = Except.error e →
        e.returncode = rc ∧ e.cmd = cmd) ∧
    (∀ encoder cmd rest, encoder cmd ≠ 0 →
        runJobs encoder (cmd :: rest) = Except.error ⟨encoder cmd, cmd⟩) := by
  refine ⟨?_, ?_, ?_, ?_⟩
  · intro cmd rc h
    simp [run_live_exit, h]
  · intro check cmd
    simp [run_live_exit]
  · intro cmd rc e h
    rw [run_live_exit] at h
    by_cases hrc : rc = 0
    · subst hrc
      simp at h
    · rw [if_pos ⟨rfl, hrc⟩] at h
      injection h with h
      subst h
      exact ⟨rfl, rfl⟩
  · intro encoder cmd rest h
    rw [runJobs]
    have h2 : run_live_exit true cmd (encoder cmd) = Except.error ⟨encoder cmd, cmd⟩ := by
      simp [run_live_exit, h]
    rw [h2]

/-- Concrete-input witness for `run_live_failure_propagation`. -/
theorem run_live_failure_witness :
    run_live_exit true [FFMPEG, "-i", "x.mp4", "out.mp4"] 1 =
      Except.error ⟨1, [FFMPEG, "-i", "x.mp4", "out.mp4"]⟩ ∧
    run_live_exit true ["ffmpeg"] 0 = Except.ok 0 :=
  ⟨run_live_failure_propagation.1 [FFMPEG, "-i", "x.mp4", "out.mp4"] 1 (by decide),
   run_live_failure_propagation.2.1 true ["ffmpeg"]⟩

theorem maybe_print_forced (tty : Bool) (dur : Option ℚ) (now : ℚ) (s : MonState) :
    maybe_print tty dur now true s =
      ({ s with
          filePct := computePct s.outTime dur s.filePct, lastPrintTs := now,
          lastPrintedPct := if (computePct s.outTime dur s.filePct).isSome
            then (computePct s.outTime dur s.filePct).getD 0 else s.lastPrintedPct },
       [MonAction.emitStatus (computePct s.outTime dur s.filePct) s.outTime]) := by
  simp [maybe_print]

theorem maybe_print_actions (tty : Bool) (dur : Option ℚ) (now : ℚ) (force : Bool)
    (s : MonState) :
    (maybe_print tty dur now force s).2 = [] ∨
      (maybe_print tty dur now force s).2 =
        [MonAction.emitStatus (computePct s.outTime dur s.filePct) s.outTime] := by
  simp only [maybe_print]
  split_ifs <;> simp

theorem maybe_print_no_kill (tty : Bool) (dur : Option ℚ) (now : ℚ) (force : Bool)
    (s : MonState) : MonAction.killProcess ∉ (maybe_print tty dur now force s).2 := by
  rcases maybe_print_actions tty dur now force s with h | h <;> rw [h] <;> simp

/-- Claim C9: while the monitored process is alive, an absence of output for
the heartbeat interval causes exactly a forced status emission, the
"still running" notice, and a reset of the idle timer — the loop does not
break, and neither the idle step nor the line step ever produces a
`killProcess` action (the monitor never terminates, kills or signals the
process in response to a stall). -/
theorem monitor_stall_no_kill :
    (∀ tty dur now s, HEARTBEAT_SEC ≤ now - s.lastOutput →
      monitor_idle_step tty dur now true s =
        ({ (maybe_print tty dur now true s).1 with lastOutput := now },
         [MonAction.emitStatus (computePct s.outTime dur s.filePct) s.outTime,
          MonAction.stillRunningNotice], false)) ∧
    (∀ tty dur now s, ¬HEARTBEAT_SEC ≤ now - s.lastOutput →
      monitor_idle_step tty dur now true s = (s, [], false)) ∧
    (∀ tty dur now alive s,
      MonAction.killProcess ∉ (monitor_idle_step tty dur now alive s).2.1) ∧
    (∀ tty dur now line s,
      MonAction.killProcess ∉ (monitor_line_step tty dur now line s).2) := by
  refine ⟨?_, ?_, ?_, ?_⟩
  · intro tty dur now s h
    simp only [monitor_idle_step, Bool.not_eq_true', if_pos h]
    rw [maybe_print_forced]
    simp
  · intro tty dur now s h
    simp only [monitor_idle_step, Bool.not_eq_true', if_neg h]
    simp
  · intro tty dur now alive s
    cases alive with
    | false => simp [monitor_idle_step]
    | true =>
      simp only [monitor_idle_step]
      by_cases h : HEARTBEAT_SEC ≤ now - s.lastOutput
      · rw [if_pos h]
        intro hmem
        have hmem2 : MonAction.killProcess ∈ (maybe_print tty dur now true s).2 := by
          simpa using hmem
        exact maybe_print_no_kill tty dur now true s hmem2
      · rw [if_neg h]
        simp
  · intro tty dur now line s
    rw [monitor_line_step]
    cases hkv : parse_ffmpeg_kv_progress line with
    | none =>
      simp only
      split_ifs <;> simp
    | some kv =>
      obtain ⟨k, v⟩ := kv
      simp only
      by_cases h1 : k = "out_time_ms"
      · rw [if_pos h1]
        exact maybe_print_no_kill _ _ _ _ _
      · rw [if_neg h1]
        by_cases h2 : k = "out_time"
        · rw [if_pos h2]
          split_ifs with h3
          · exact maybe_print_no_kill _ _ _ _ _
          · simp
        · rw [if_neg h2]
          by_cases h4 : k = "progress"
          · rw [if_pos h4]
            split_ifs with h5
            · exact maybe_print_no_kill _ _ _ _ _
            · simp
          · rw [if_neg h4]
            simp

/-- Concrete-input witness for `monitor_stall_no_kill`: after 10 idle
seconds from the initial state, the monitor emits one forced status line and
the notice, resets its idle timer, and keeps looping. -/
theorem monitor_stall_no_kill_witness :
    monitor_idle_step false none 10 true ⟨0, 0, -1000000000, none, none, false⟩ =
      ({ (maybe_print false none 10 true ⟨0, 0, -1000000000, none, none, false⟩).1 with
          lastOutput := 10 },
       [MonAction.emitStatus (computePct none none none) none,
        MonAction.stillRunningNotice], false) :=
  monitor_stall_no_kill.1 false none 10 ⟨0, 0, -1000000000, none, none, false⟩
    (by simp [HEARTBEAT_SEC])

/-! ### Overlay Text Generator: `build_overlay_filter_dynamic` -/

/-- The run environment read by Windows font discovery: the `WINDIR`
variable and the set of files that exist. -/
structure FsEnv where
  windirVar : Option String
  existing : List String
deriving DecidableEq

/-- `Path.exists()` against the environment. -/
def pathExists (env : FsEnv) (p : String) : Bool := env.existing.contains p

/-- `Path(a) / b` rendered as a Windows path string. -/
def winJoin (a b : String) : String := a ++ "\\" ++ b

/-- `.replace("\\", "/")`. -/
def replaceBackslash (s : String) : String :=
  String.mk (s.data.map fun c => if c = '\\' then '/' else c)

/-- `.replace(":", "\\:")` (escaping the drive-letter colon for drawtext). -/
def escapeColons (s : String) : String :=
  String.mk (s.data.foldr (fun c acc => if c = ':' then '\\' :: ':' :: acc else c :: acc) [])

/-- The candidate font files tried by `pick_windows_fontfile`, under
`%WINDIR%\Fonts` (default `C:\Windows`). -/
def fontCandidates (env : FsEnv) : List String :=
  let windir := env.windirVar.getD "C:\\Windows"
  let fontsDir := winJoin windir "Fonts"
  [winJoin fontsDir "arial.ttf", winJoin fontsDir "Arial.ttf",
   winJoin fontsDir "calibri.ttf", winJoin fontsDir "Calibri.ttf",
   winJoin fontsDir "segoeui.ttf", winJoin fontsDir "SegoeUI.ttf",
   winJoin fontsDir "tahoma.ttf", winJoin fontsDir "Tahoma.ttf"]

/-- `pick_windows_fontfile`: the user-provided `TIMESTAMP_FONTFILE` if it
exists, else the first existing common Windows font, slashes normalised. -/
def pick_windows_fontfile (env : FsEnv) : Option String :=
  match TIMESTAMP_FONTFILE with
  | some f =>
    if pathExists env f then some (replaceBackslash f)
    else ((fontCandidates env).find? (pathExists env)).map replaceBackslash
  | none => ((fontCandidates env).find? (pathExists env)).map replaceBackslash

/-- Day number of a Gregorian civil date (days since 0000-03-01), defined
for the valid dates produced by `parse_dt`. -/
def daysFromCivil (y m d : Nat) : Nat :=
  let y2 := if m ≤ 2 then y - 1 else y
  let era := y2 / 400
  let yoe := y2 % 400
  let mp := (m + 9) % 12
  let doy := (153 * mp + 2) / 5 + d - 1
  let doe := yoe * 365 + yoe / 4 - yoe / 100 + doy
  era * 146097 + doe

/-- Inverse of `daysFromCivil`. -/
def civilFromDays (z : Nat) : Nat × Nat × Nat :=
  let era := z / 146097
  let doe := z % 146097
  let yoe := (doe - doe / 1460 + doe / 36524 - doe / 146096) / 365
  let y := yoe + era * 400
  let doy := doe - (365 * yoe + yoe / 4 - yoe / 100)
  let mp := (5 * doy + 2) / 153
  let d := doy - (153 * mp + 2) / 5 + 1
  let m := if mp < 10 then mp + 3 else mp - 9
  (if m ≤ 2 then y + 1 else y, m, d)

/-- `dt + timedelta(hours=shift)` (defined for results inside the calendar;
`datetime` raises outside it). -/
def shiftHours (t : DT) (shift : Int) : DT :=
  let total : Int := (daysFromCivil t.year t.month t.day : Int) * 86400 +
    ((t.hour * 3600 + t.minute * 60 + t.second : Nat) : Int) + shift * 3600
  let dayN : Int := Int.fdiv total 86400
  let secs : Nat := (Int.fmod total 86400).toNat
  let c := civilFromDays dayN.toNat
  { year := c.1, month := c.2.1, day := c.2.2,
    hour := secs / 3600, minute := secs % 3600 / 60, second := secs % 60 }

/-- Two-digit zero-padded rendering (`%02d` fields of `strftime`). -/
def pad2 (n : Nat) : String := if n < 10 then "0" ++ Nat.repr n else Nat.repr n

/-- Four-digit zero-padded year. -/
def pad4 (n : Nat) : String :=
  if n < 10 then "000" ++ Nat.repr n
  else if n < 100 then "00" ++ Nat.repr n
  else if n < 1000 then "0" ++ Nat.repr n
  else Nat.repr n

/-- `dt_adj.strftime("%Y-%m-%d")`. -/
def dateTextOf (t : DT) : String := pad4 t.year ++ "-" ++ pad2 t.month ++ "-" ++ pad2 t.day

/-- The `two_digits` helper of the overlay builder: print tens digit and
ones digit of a drawtext expression via two `eif` blocks. -/
def twoDigits (expr : String) : String :=
  "%\x7beif\\:trunc((" ++ expr ++ ")/10)\\:d\x7d" ++
  "%\x7beif\\:mod((" ++ expr ++ ")\\,10)\\:d\x7d"

/-- `build_overlay_filter_dynamic`, parameterised by the script's
`TIMESTAMP_FONT_SIZE` (100 in the 4-camera script, 50 in the front-camera
script): derive the burned-in `YYYY-MM-DD HH:MM:SSxFF` drawtext filter from
the folder name, shifted by `TIMESTAMP_SHIFT_HOURS`. -/
def overlayFilterDynamic (fontSize : Nat) (env : FsEnv) (folderName : String) :
    Option String :=
  if ¬DRAW_TIMESTAMP then none
  else
    match folderRegexMatch folderName with
    | none => none
    | some (dateS, timeS) =>
      match parse_dt dateS timeS with
      | none => none
      | some dtSrc =>
        let dtAdj := shiftHours dtSrc TIMESTAMP_SHIFT_HOURS
        let dateText := dateTextOf dtAdj
        let baseSec := dtAdj.hour * 3600 + dtAdj.minute * 60 + dtAdj.second
        let fontOpt :=
          match pick_windows_fontfile env with
          | some fontfile =>
            "fontfile=" ++ sq ++ escapeColons (replaceBackslash fontfile) ++ sq ++ ":"
          | none => "font=" ++ sq ++ TIMESTAMP_FONT_FALLBACK_NAME ++ sq ++ ":"
        let box := if TIMESTAMP_BOX then "1" else "0"
        let boxcolor := if TIMESTAMP_BOX then "black@" ++ TIMESTAMP_BOX_OPACITY_STR
          else "black@0"
        let yPos := "h-text_h-" ++ Nat.repr TIMESTAMP_PADDING_Y
        let hExpr := "trunc((t+" ++ Nat.repr baseSec ++ ")/3600)"
        let mExpr := "mod(trunc((t+" ++ Nat.repr baseSec ++ ")/60)\\,60)"
        let sExpr := "mod(trunc(t+" ++ Nat.repr baseSec ++ ")\\,60)"
        let fExpr := "mod(n\\," ++ Nat.repr OUTPUT_FPS ++ ")"
        let textExpr := dateText ++ " " ++ twoDigits hExpr ++ "\\:" ++
          twoDigits mExpr ++ "\\:" ++ twoDigits sExpr ++ "x" ++ twoDigits fExpr
        some ("drawtext=" ++ fontOpt ++
          "text=" ++ sq ++ textExpr ++ sq ++ ":" ++
          "fontsize=" ++ Nat.repr fontSize ++ ":" ++
          "fontcolor=white:" ++
          "shadowcolor=black:shadowx=3:shadowy=3:" ++
          "box=" ++ box ++ ":" ++
          "boxcolor=" ++ boxcolor ++ ":" ++
          "boxborderw=" ++ Nat.repr TIMESTAMP_BOX_BORDER ++ ":" ++
          "x=(w-text_w)/2:" ++
          "y=" ++ yPos)

/-- `build_overlay_filter_dynamic` of the 4-camera script. -/
def build_overlay_filter_dynamic (env : FsEnv) (folderName : String) : Option String :=
  overlayFilterDynamic TIMESTAMP_FONT_SIZE env folderName

/-- `build_overlay_filter_dynamic` of the front-camera script
(font size 50). -/
def build_overlay_filter_front (env : FsEnv) (folderName : String) : Option String :=
  overlayFilterDynamic 50 env folderName

/-! ### Probing collaborator and Segment Job Builder -/

/-- The four camera identifiers. -/
inductive Cam where
  | front
  | back
  | left
  | right
deriving DecidableEq

/-- The fixed priority order `["front", "back", "left", "right"]`. -/
def camOrder : List Cam := [Cam.front, Cam.back, Cam.left, Cam.right]

/-- Outcome of one `ffprobe` audio query on a file: the invocation failed
(non-zero exit) or produced unparsable JSON, or it reported whether an
audio stream is present. -/
inductive AudioProbe where
  | fail
  | ok (hasAudio : Bool)
deriving DecidableEq

/-- `ffprobe_has_audio` (lines 365–383): a failed or unparsable probe
yields `False`, never an exception. -/
def ffprobe_has_audio : AudioProbe → Bool
  | AudioProbe.fail => false
  | AudioProbe.ok b => b

/-- Outcome of one `ffprobe` duration query on a file. -/
inductive DurationProbe where
  | fail
  | ok (dur : ℚ)
deriving DecidableEq

/-- `ffprobe_duration_sec` (lines 386–402): a failed invocation or a
non-numeric result yields `None`, never an exception. -/
def ffprobe_duration_sec : DurationProbe → Option ℚ
  | DurationProbe.fail => none
  | DurationProbe.ok d => some d

/-- `pick_audio_camera_for_segment`: first camera in priority order whose
file is present and probes as having audio. -/
def pick_audio_camera_for_segment (audioProbe : String → AudioProbe)
    (cams : Cam → Option String) : Option Cam :=
  camOrder.find? fun c =>
    match cams c with
    | some p => ffprobe_has_audio (audioProbe p)
    | none => false

/-- The `durations` list of `build_segment_4k` (lines 641–645): per-camera
probed durations, keeping only truthy positive values. -/
def camDurations (durProbe : String → DurationProbe) (cams : Cam → String) : List ℚ :=
  camOrder.filterMap fun c =>
    match ffprobe_duration_sec (durProbe (cams c)) with
    | some d => if 0 < d then some d else none
    | none => none

/-- `min(durations)` over a non-empty list. -/
def listMin : List ℚ → Option ℚ
  | [] => none
  | d :: ds => some (ds.foldl min d)

/-- `min(durations) if durations else 60.0` (line 646). -/
def segDur4k (durProbe : String → DurationProbe) (cams : Cam → String) : ℚ :=
  match listMin (camDurations durProbe cams) with
  | some m => m
  | none => 60

/-- `ffprobe_duration_sec(front_file) or 60.0`
(front script, line 484): `None` and `0.0` both fall back to 60. -/
def segDurFront (durProbe : String → DurationProbe) (frontFile : String) : ℚ :=
  match ffprobe_duration_sec (durProbe frontFile) with
  | none => 60
  | some d => if d = 0 then 60 else d

/-- Round a rational to thousandths, ties to even (the rounding applied by
`f"{x:.3f}"` on exactly representable values). -/
def round3 (q : ℚ) : Int :=
  let n : Int := q.num * 1000
  let d : Int := (q.den : Int)
  let f : Int := Int.fdiv n d
  let r : Int := n - f * d
  if 2 * r < d then f
  else if d < 2 * r then f + 1
  else if f % 2 = 0 then f else f + 1

/-- Three-digit zero-padded fraction. -/
def pad3 (n : Nat) : String :=
  if n < 10 then "00" ++ Nat.repr n
  else if n < 100 then "0" ++ Nat.repr n
  else Nat.repr n

/-- `f"{q:.3f}"`. -/
def fmt3 (q : ℚ) : String :=
  let m := round3 q
  if m < 0 then
    let a := (-m).toNat
    "-" ++ Nat.repr (a / 1000) ++ "." ++ pad3 (a % 1000)
  else
    let a := m.toNat
    Nat.repr (a / 1000) ++ "." ++ pad3 (a % 1000)

/-- `";".join`. -/
def joinSep (sep : String) : List String → String
  | [] => ""
  | [a] => a
  | a :: b :: rest => a ++ sep ++ joinSep sep (b :: rest)

/-- The initial `cmd` list of `build_segment_4k` (lines 651–663). -/
def segment4kBaseCmd (cams : Cam → String) : List String :=
  [FFMPEG, "-y", "-hide_banner", "-loglevel", FFMPEG_LOGLEVEL, "-stats",
   "-progress", "pipe:2", "-fflags", "+genpts", "-avoid_negative_ts", "make_zero",
   "-i", cams Cam.front, "-i", cams Cam.back, "-i", cams Cam.left, "-i", cams Cam.right]

/-- The silent-audio input block added when no camera has audio
(line 667): silence of the segment's estimated duration, stereo, 48 kHz. -/
def silentAudioArgs (d : ℚ) : List String :=
  ["-f", "lavfi", "-t", fmt3 d, "-i", "anullsrc=r=48000:cl=stereo"]

/-- One tile of the 2×2 filter graph (lines 673–677). -/
def tileFilter (inputIdx : Nat) (label : String) : String :=
  "[" ++ Nat.repr inputIdx ++ ":v]setpts=N/(" ++ Nat.repr OUTPUT_FPS ++
  "*TB),pad=" ++ Nat.repr TILE_W ++ ":" ++ Nat.repr TILE_H ++
  ":(ow-iw)/2:(oh-ih)/2:color=black,setsar=1[" ++ label ++ "]"

/-- The full 4-camera filter graph including the optional overlay
(lines 673–689). -/
def segment4kFiltergraph (overlay : Option String) : String :=
  joinSep ";"
    ([tileFilter 0 "v_f", tileFilter 1 "v_b", tileFilter 2 "v_l", tileFilter 3 "v_r",
      "[v_f][v_b]hstack=inputs=2[top]",
      "[v_l][v_r]hstack=inputs=2[bot]",
      "[top][bot]vstack=inputs=2[vstacked]"] ++
     [match overlay with
      | some ov => "[vstacked]" ++ ov ++ "[vout]"
      | none => "[vstacked]copy[vout]"])

/-- Input index of each camera in the 4-camera invocation (line 697). -/
def camIndex : Cam → String
  | Cam.front => "0"
  | Cam.back => "1"
  | Cam.left => "2"
  | Cam.right => "3"

/-- The audio `-map` block (lines 696–700): the donor camera's first audio
stream (optional `?`), or the synthetic silent input `4:a:0`. -/
def audioMapArgs : Option Cam → List String
  | some c => ["-map", camIndex c ++ ":a:0?"]
  | none => ["-map", "4:a:0"]

/-- Rate, shortest-stream bound and encoding settings
(lines 703–719). -/
def segment4kTailArgs (outSeg : String) : List String :=
  ["-r", Nat.repr OUTPUT_FPS, "-shortest",
   "-c:v", "libx264", "-preset", PRESET, "-crf", Nat.repr CRF,
   "-pix_fmt", "yuv420p", "-profile:v", "high", "-level:v", "5.1",
   "-c:a", "aac", "-b:a", "160k", outSeg]

/-- A built segment encode job: the selected audio donor, the estimated
duration (used only for progress display) and the full encoder invocation. -/
structure SegmentJob where
  audioCam : Option Cam
  segDur : ℚ
  durationForPct : ℚ
  cmd : List String
deriving DecidableEq

/-- `build_segment_4k` (lines 612–733): construct the complete 4-camera
encode invocation for one segment with all four camera files present. -/
def build_segment_4k (audioProbe : String → AudioProbe)
    (durProbe : String → DurationProbe) (env : FsEnv) (folderName : String)
    (cams : Cam → String) (outSeg : String) : SegmentJob :=
  let audioCam := pick_audio_camera_for_segment audioProbe (fun c => some (cams c))
  let segDur := segDur4k durProbe cams
  let overlay := build_overlay_filter_dynamic env folderName
  { audioCam := audioCam
    segDur := segDur
    durationForPct := segDur
    cmd := segment4kBaseCmd cams ++
      (if audioCam = none then silentAudioArgs segDur else []) ++
      ["-filter_complex", segment4kFiltergraph overlay, "-map", "[vout]"] ++
      audioMapArgs audioCam ++
      segment4kTailArgs outSeg }

/-- `build_segment_4k` followed by `run_live(cmd, check=True, ...)`
(line 733), given the encoder's exit code for an invocation. -/
def build_segment_4k_run (audioProbe : String → AudioProbe)
    (durProbe : String → DurationProbe) (env : FsEnv) (folderName : String)
    (cams : Cam → String) (outSeg : String) (encoderExit : List String → Int) :
    Except CalledProcessError Int :=
  run_live_exit true
    (build_segment_4k audioProbe durProbe env folderName cams outSeg).cmd
    (encoderExit (build_segment_4k audioProbe durProbe env folderName cams outSeg).cmd)

/-- The front-camera filter graph (front script, lines 491–507). -/
def segmentFrontFiltergraph (overlay : Option String) : String :=
  joinSep ";"
    (["[0:v]setpts=N/(" ++ Nat.repr OUTPUT_FPS ++ "*TB),crop=iw:ih-" ++
      Nat.repr CROP_BOTTOM_PX ++ ":0:0,setsar=1[v0]"] ++
     [match overlay with
      | some ov => "[v0]" ++ ov ++ "[vout]"
      | none => "[v0]copy[vout]"])

/-- `build_segment_front` (front script, lines 462–558): the single-camera
job; audio kept if the front file has it, else synthesized silence. -/
def build_segment_front (audioProbe : String → AudioProbe)
    (durProbe : String → DurationProbe) (env : FsEnv) (folderName : String)
    (frontFile : String) (outSeg : String) : SegmentJob :=
  let hasAudio := ffprobe_has_audio (audioProbe frontFile)
  let segDur := segDurFront durProbe frontFile
  let overlay := build_overlay_filter_front env folderName
  { audioCam := if hasAudio then some Cam.front else none
    segDur := segDur
    durationForPct := segDur
    cmd := [FFMPEG, "-y", "-hide_banner", "-loglevel", FFMPEG_LOGLEVEL, "-stats",
      "-progress", "pipe:2", "-fflags", "+genpts", "-avoid_negative_ts", "make_zero",
      "-i", frontFile] ++
      (if hasAudio then [] else silentAudioArgs segDur) ++
      ["-filter_complex", segmentFrontFiltergraph overlay, "-map", "[vout]"] ++
      (if hasAudio then ["-map", "0:a:0?"] else ["-map", "1:a:0"]) ++
      ["-r", Nat.repr OUTPUT_FPS, "-shortest",
       "-c:v", "libx264", "-preset", PRESET, "-crf", Nat.repr CRF,
       "-pix_fmt", "yuv420p", "-profile:v", "high", "-level:v", "4.2",
       "-c:a", "aac", "-b:a", "160k", outSeg] }

theorem pick_audio_eq (audioProbe : String → AudioProbe) (cams : Cam → String) :
    pick_audio_camera_for_segment audioProbe (fun c => some (cams c)) =
      (if ffprobe_has_audio (audioProbe (cams Cam.front)) then some Cam.front
       else if ffprobe_has_audio (audioProbe (cams Cam.back)) then some Cam.back
       else if ffprobe_has_audio (audioProbe (cams Cam.left)) then some Cam.left
       else if ffprobe_has_audio (audioProbe (cams Cam.right)) then some Cam.right
       else none) := by
  rw [pick_audio_camera_for_segment, camOrder]
  by_cases h1 : ffprobe_has_audio (audioProbe (cams Cam.front)) <;>
    by_cases h2 : ffprobe_has_audio (audioProbe (cams Cam.back)) <;>
    by_cases h3 : ffprobe_has_audio (audioProbe (cams Cam.left)) <;>
    by_cases h4 : ffprobe_has_audio (audioProbe (cams Cam.right)) <;>
    simp [List.find?, h1, h2, h3, h4]

theorem build_segment_4k_audioCam (audioProbe : String → AudioProbe)
    (durProbe : String → DurationProbe) (env : FsEnv) (folderName : String)
    (cams : Cam → String) (outSeg : String) :
    (build_segment_4k audioProbe durProbe env folderName cams outSeg).audioCam =
      pick_audio_camera_for_segment audioProbe (fun c => some (cams c)) := rfl

theorem build_segment_4k_segDur (audioProbe : String → AudioProbe)
    (durProbe : String → DurationProbe) (env : FsEnv) (folderName : String)
    (cams : Cam → String) (outSeg : String) :
    (build_segment_4k audioProbe durProbe env folderName cams outSeg).segDur =
      segDur4k durProbe cams := rfl

theorem build_segment_4k_cmd (audioProbe : String → AudioProbe)
    (durProbe : String → DurationProbe) (env : FsEnv) (folderName : String)
    (cams : Cam → String) (outSeg : String) :
    (build_segment_4k audioProbe durProbe env folderName cams outSeg).cmd =
      segment4kBaseCmd cams ++
      (if pick_audio_camera_for_segment audioProbe (fun c => some (cams c)) = none
        then silentAudioArgs (segDur4k durProbe cams) else []) ++
      ["-filter_complex",
        segment4kFiltergraph (build_overlay_filter_dynamic env folderName),
        "-map", "[vout]"] ++
      audioMapArgs (pick_audio_camera_for_segment audioProbe (fun c => some (cams c))) ++
      segment4kTailArgs outSeg := rfl

/-- Claim C4: for a multi-camera segment with all four camera files present,
the chosen audio donor is the first camera in the fixed order
front, back, left, right whose file is probed to contain an audio stream;
and when no camera has audio, the invocation instead includes the
synthesized silent stereo source of the segment's estimated duration
(`-t` formatted from it) and maps it (`4:a:0`), while a chosen donor is
mapped through its own input index. -/
theorem audio_donor_priority (audioProbe : String → AudioProbe)
    (durProbe : String → DurationProbe) (env : FsEnv) (folderName : String)
    (cams : Cam → String) (outSeg : String) :
    ((build_segment_4k audioProbe durProbe env folderName cams outSeg).audioCam =
        some Cam.front ↔ ffprobe_has_audio (audioProbe (cams Cam.front)) = true) ∧
    ((build_segment_4k audioProbe durProbe env folderName cams outSeg).audioCam =
        some Cam.back ↔ ffprobe_has_audio (audioProbe (cams Cam.front)) = false ∧
          ffprobe_has_audio (audioProbe (cams Cam.back)) = true) ∧
    ((build_segment_4k audioProbe durProbe env folderName cams outSeg).audioCam =
        some Cam.left ↔ ffprobe_has_audio (audioProbe (cams Cam.front)) = false ∧
          ffprobe_has_audio (audioProbe (cams Cam.back)) = false ∧
          ffprobe_has_audio (audioProbe (cams Cam.left)) = true) ∧
    ((build_segment_4k audioProbe durProbe env folderName cams outSeg).audioCam =
        some Cam.right ↔ ffprobe_has_audio (audioProbe (cams Cam.front)) = false ∧
          ffprobe_has_audio (audioProbe (cams Cam.back)) = false ∧
          ffprobe_has_audio (audioProbe (cams Cam.left)) = false ∧
          ffprobe_has_audio (audioProbe (cams Cam.right)) = true) ∧
    ((build_segment_4k audioProbe durProbe env folderName cams outSeg).audioCam =
        none ↔ ffprobe_has_audio (audioProbe (cams Cam.front)) = false ∧
          ffprobe_has_audio (audioProbe (cams Cam.back)) = false ∧
          ffprobe_has_audio (audioProbe (cams Cam.left)) = false ∧
          ffprobe_has_audio (audioProbe (cams Cam.right)) = false) ∧
    ((build_segment_4k audioProbe durProbe env folderName cams outSeg).audioCam = none →
      List.IsInfix
        (silentAudioArgs (build_segment_4k audioProbe durProbe env folderName cams
          outSeg).segDur)
        (build_segment_4k audioProbe durProbe env folderName cams outSeg).cmd ∧
      List.IsInfix ["-map", "4:a:0"]
        (build_segment_4k audioProbe durProbe env folderName cams outSeg).cmd) ∧
    (∀ c, (build_segment_4k audioProbe durProbe env folderName cams outSeg).audioCam =
        some c →
      List.IsInfix ["-map", camIndex c ++ ":a:0?"]
        (build_segment_4k audioProbe durProbe env folderName cams outSeg).cmd) := by
  rw [build_segment_4k_audioCam, build_segment_4k_segDur, build_segment_4k_cmd,
    pick_audio_eq]
  constructor
  · by_cases h1 : ffprobe_has_audio (audioProbe (cams Cam.front)) <;>
      by_cases h2 : ffprobe_has_audio (audioProbe (cams Cam.back)) <;>
      by_cases h3 : ffprobe_has_audio (audioProbe (cams Cam.left)) <;>
      by_cases h4 : ffprobe_has_audio (audioProbe (cams Cam.right)) <;>
      simp [h1, h2, h3, h4]
  constructor
  · by_cases h1 : ffprobe_has_audio (audioProbe (cams Cam.front)) <;>
      by_cases h2 : ffprobe_has_audio (audioProbe (cams Cam.back)) <;>
      by_cases h3 : ffprobe_has_audio (audioProbe (cams Cam.left)) <;>
      by_cases h4 : ffprobe_has_audio (audioProbe (cams Cam.right)) <;>
      simp [h1, h2, h3, h4]
  constructor
  · by_cases h1 : ffprobe_has_audio (audioProbe (cams Cam.front)) <;>
      by_cases h2 : ffprobe_has_audio (audioProbe (cams Cam.back)) <;>
      by_cases h3 : ffprobe_has_audio (audioProbe (cams Cam.left)) <;>
      by_cases h4 : ffprobe_has_audio (audioProbe (cams Cam.right)) <;>
      simp [h1, h2, h3, h4]
  constructor
  · by_cases h1 : ffprobe_has_audio (audioProbe (cams Cam.front)) <;>
      by_cases h2 : ffprobe_has_audio (audioProbe (cams Cam.back)) <;>
      by_cases h3 : ffprobe_has_audio (audioProbe (cams Cam.left)) <;>
      by_cases h4 : ffprobe_has_audio (audioProbe (cams Cam.right)) <;>
      simp [h1, h2, h3, h4]
  constructor
  · by_cases h1 : ffprobe_has_audio (audioProbe (cams Cam.front)) <;>
      by_cases h2 : ffprobe_has_audio (audioProbe (cams Cam.back)) <;>
      by_cases h3 : ffprobe_has_audio (audioProbe (cams Cam.left)) <;>
      by_cases h4 : ffprobe_has_audio (audioProbe (cams Cam.right)) <;>
      simp [h1, h2, h3, h4]
  constructor
  · intro h
    rw [h, if_pos rfl]
    constructor
    · refine ⟨segment4kBaseCmd cams,
        ["-filter_complex",
          segment4kFiltergraph (build_overlay_filter_dynamic env folderName),
          "-map", "[vout]"] ++ audioMapArgs none ++ segment4kTailArgs outSeg, ?_⟩
      simp [List.append_assoc]
    · refine ⟨segment4kBaseCmd cams ++ silentAudioArgs (segDur4k durProbe cams) ++
        ["-filter_complex",
          segment4kFiltergraph (build_overlay_filter_dynamic env folderName),
          "-map", "[vout]"], segment4kTailArgs outSeg, ?_⟩
      simp [audioMapArgs, List.append_assoc]
  · intro c h
    rw [h]
    rw [if_neg (by simp)]
    refine ⟨segment4kBaseCmd cams ++ [] ++
      ["-filter_complex",
        segment4kFiltergraph (build_overlay_filter_dynamic env folderName),
        "-map", "[vout]"], segment4kTailArgs outSeg, ?_⟩
    simp [audioMapArgs, List.append_assoc]

/-- Concrete-input witness for `audio_donor_priority`: all four files probe
as having audio, so the donor is the front camera (priority order). -/
theorem audio_donor_priority_witness :
    (build_segment_4k (fun _ => AudioProbe.ok true) (fun _ => DurationProbe.ok 60)
        ⟨none, []⟩ "2025-11-17_14-25-37" (fun _ => "cam.mp4") "o.mp4").audioCam =
      some Cam.front :=
  (audio_donor_priority (fun _ => AudioProbe.ok true) (fun _ => DurationProbe.ok 60)
    ⟨none, []⟩ "2025-11-17_14-25-37" (fun _ => "cam.mp4") "o.mp4").1.mpr rfl

theorem build_segment_4k_durationForPct (audioProbe : String → AudioProbe)
    (durProbe : String → DurationProbe) (env : FsEnv) (folderName : String)
    (cams : Cam → String) (outSeg : String) :
    (build_segment_4k audioProbe durProbe env folderName cams outSeg).durationForPct =
      segDur4k durProbe cams := rfl

theorem build_segment_front_durationForPct (audioProbe : String → AudioProbe)
    (durProbe : String → DurationProbe) (env : FsEnv) (folderName : String)
    (frontFile outSeg : String) :
    (build_segment_front audioProbe durProbe env folderName frontFile
        outSeg).durationForPct = segDurFront durProbe frontFile := rfl

theorem foldl_min_le_init (l : List ℚ) : ∀ a : ℚ, l.foldl min a ≤ a := by
  induction l with
  | nil => intro a; exact le_refl a
  | cons b bs ih => intro a; exact le_trans (ih (min a b)) (min_le_left a b)

theorem foldl_min_le_mem (l : List ℚ) : ∀ a : ℚ, ∀ x ∈ l, l.foldl min a ≤ x := by
  induction l with
  | nil =>
    intro a x hx
    simp at hx
  | cons b bs ih =>
    intro a x hx
    rcases List.mem_cons.mp hx with rfl | hx
    · exact le_trans (foldl_min_le_init bs (min a x)) (min_le_right a x)
    · exact ih (min a b) x hx

theorem foldl_min_mem (l : List ℚ) : ∀ a : ℚ, l.foldl min a = a ∨ l.foldl min a ∈ l := by
  induction l with
  | nil => intro a; exact Or.inl rfl
  | cons b bs ih =>
    intro a
    rcases ih (min a b) with h | h
    · rcases min_choice a b with hm | hm
      · exact Or.inl (by rw [List.foldl_cons, h, hm])
      · exact Or.inr (List.mem_cons.mpr (Or.inl (by rw [List.foldl_cons, h, hm])))
    · exact Or.inr (List.mem_cons_of_mem b h)

theorem listMin_le {l : List ℚ} {m : ℚ} (h : listMin l = some m) : ∀ x ∈ l, m ≤ x := by
  cases l with
  | nil => simp [listMin] at h
  | cons d ds =>
    rw [listMin] at h
    injection h with h
    subst h
    intro x hx
    rcases List.mem_cons.mp hx with rfl | hx
    · exact foldl_min_le_init ds x
    · exact foldl_min_le_mem ds d x hx

theorem listMin_mem {l : List ℚ} {m : ℚ} (h : listMin l = some m) : m ∈ l := by
  cases l with
  | nil => simp [listMin] at h
  | cons d ds =>
    rw [listMin] at h
    injection h with h
    subst h
    rcases foldl_min_mem ds d with h2 | h2
    · rw [h2]
      exact List.mem_cons_self d ds
    · exact List.mem_cons_of_mem d h2

theorem listMin_eq_none {l : List ℚ} (h : listMin l = none) : l = [] := by
  cases l with
  | nil => rfl
  | cons d ds => simp [listMin] at h

theorem mem_camDurations {durProbe : String → DurationProbe} {cams : Cam → String}
    {d : ℚ} :
    d ∈ camDurations durProbe cams ↔
      ∃ c : Cam, ffprobe_duration_sec (durProbe (cams c)) = some d ∧ 0 < d := by
  rw [camDurations, List.mem_filterMap]
  constructor
  · rintro ⟨c, _, hfc⟩
    refine ⟨c, ?_⟩
    cases hp : ffprobe_duration_sec (durProbe (cams c)) with
    | none =>
      rw [hp] at hfc
      exact absurd hfc (by simp)
    | some d0 =>
      rw [hp] at hfc
      by_cases h0 : 0 < d0
      · simp only [h0, if_true] at hfc
        injection hfc with hfc
        subst hfc
        exact ⟨rfl, h0⟩
      · simp [h0] at hfc
  · rintro ⟨c, hc, h0⟩
    refine ⟨c, by cases c <;> simp [camOrder], ?_⟩
    rw [hc]
    simp [h0]

/-- Counterexample to Claim C5 as stated: the fallback duration is not used
solely for progress-percentage display. At a concrete segment where every
duration probe fails and no camera has audio, the 60 s fallback is also
written into the encoder invocation itself, as the synthesized silent
source's `-t` length (`-t 60.000`), alongside `-shortest`, where it bounds
the encoded output rather than only the displayed percentage. -/
theorem duration_display_only_counterexample :
    (build_segment_4k (fun _ => AudioProbe.fail) (fun _ => DurationProbe.fail)
        ⟨none, []⟩ "2025-11-17_14-25-37" (fun _ => "cam.mp4")
        "out.mp4").durationForPct = 60 ∧
    fmt3 60 = "60.000" ∧
    List.IsInfix ["-t", fmt3 60, "-i", "anullsrc=r=48000:cl=stereo"]
      (build_segment_4k (fun _ => AudioProbe.fail) (fun _ => DurationProbe.fail)
        ⟨none, []⟩ "2025-11-17_14-25-37" (fun _ => "cam.mp4") "out.mp4").cmd ∧
    "-shortest" ∈
      (build_segment_4k (fun _ => AudioProbe.fail) (fun _ => DurationProbe.fail)
        ⟨none, []⟩ "2025-11-17_14-25-37" (fun _ => "cam.mp4") "out.mp4").cmd := by
  refine ⟨rfl, by decide, ?_, ?_⟩
  · decide
  · decide

/-- Claim C5 (amended): the duration used for progress estimation in the
multi-camera variant is the minimum of the usable (positive) per-camera
probed durations, falling back to 60 seconds when none is usable; a missing
or unparsable duration never prevents the job from being built and run; the
single-camera variant uses the front file's own probed duration with the
same fallback (also on a falsy `0.0` result). The estimated duration,
fallback included, is used for the progress percentage and additionally —
when no camera has audio — as the `-t` length of the synthesized silent
source inside the invocation (so not solely for display). -/
theorem duration_estimation (audioProbe : String → AudioProbe)
    (durProbe : String → DurationProbe) (env : FsEnv) (folderName : String)
    (cams : Cam → String) (outSeg frontFile : String) :
    (∀ c d, ffprobe_duration_sec (durProbe (cams c)) = some d → 0 < d →
      (build_segment_4k audioProbe durProbe env folderName cams
        outSeg).durationForPct ≤ d) ∧
    ((∃ c d, ffprobe_duration_sec (durProbe (cams c)) = some d ∧ 0 < d) →
      ∃ c d, ffprobe_duration_sec (durProbe (cams c)) = some d ∧
        (build_segment_4k audioProbe durProbe env folderName cams
          outSeg).durationForPct = d) ∧
    ((∀ c d, ffprobe_duration_sec (durProbe (cams c)) = some d → ¬0 < d) →
      (build_segment_4k audioProbe durProbe env folderName cams
        outSeg).durationForPct = 60) ∧
    (∀ encoderExit : List String → Int,
      encoderExit (build_segment_4k audioProbe durProbe env folderName cams
        outSeg).cmd = 0 →
      build_segment_4k_run audioProbe durProbe env folderName cams outSeg
        encoderExit = Except.ok 0) ∧
    (ffprobe_duration_sec (durProbe frontFile) = none →
      (build_segment_front audioProbe durProbe env folderName frontFile
        outSeg).durationForPct = 60) ∧
    (∀ d, ffprobe_duration_sec (durProbe frontFile) = some d → d = 0 →
      (build_segment_front audioProbe durProbe env folderName frontFile
        outSeg).durationForPct = 60) ∧
    (∀ d, ffprobe_duration_sec (durProbe frontFile) = some d → d ≠ 0 →
      (build_segment_front audioProbe durProbe env folderName frontFile
        outSeg).durationForPct = d) ∧
    ((build_segment_4k audioProbe durProbe env folderName cams outSeg).audioCam =
        none →
      List.IsInfix
        (silentAudioArgs ((build_segment_4k audioProbe durProbe env folderName cams
          outSeg).durationForPct))
        (build_segment_4k audioProbe durProbe env folderName cams outSeg).cmd) := by
  refine ⟨?_, ?_, ?_, ?_, ?_, ?_, ?_, ?_⟩
  · intro c d hc h0
    rw [build_segment_4k_durationForPct, segDur4k]
    have hdm : d ∈ camDurations durProbe cams := mem_camDurations.mpr ⟨c, hc, h0⟩
    cases hl : listMin (camDurations durProbe cams) with
    | none =>
      rw [listMin_eq_none hl] at hdm
      simp at hdm
    | some m => exact listMin_le hl d hdm
  · rintro ⟨c, d, hc, h0⟩
    rw [build_segment_4k_durationForPct, segDur4k]
    have hdm : d ∈ camDurations durProbe cams := mem_camDurations.mpr ⟨c, hc, h0⟩
    cases hl : listMin (camDurations durProbe cams) with
    | none =>
      rw [listMin_eq_none hl] at hdm
      simp at hdm
    | some m =>
      have hmm := listMin_mem hl
      obtain ⟨c2, hc2, h02⟩ := mem_camDurations.mp hmm
      exact ⟨c2, m, hc2, rfl⟩
  · intro hall
    rw [build_segment_4k_durationForPct, segDur4k]
    have hnil : camDurations durProbe cams = [] := by
      rw [List.eq_nil_iff_forall_not_mem]
      intro x hx
      obtain ⟨c, hc, h0⟩ := mem_camDurations.mp hx
      exact hall c x hc h0
    rw [hnil]
    rfl
  · intro encoderExit h
    rw [build_segment_4k_run, h]
    simp [run_live_exit]
  · intro h
    rw [build_segment_front_durationForPct, segDurFront, h]
  · intro d h h0
    rw [build_segment_front_durationForPct, segDurFront, h]
    simp [h0]
  · intro d h h0
    rw [build_segment_front_durationForPct, segDurFront, h]
    simp [h0]
  · intro h
    rw [build_segment_4k_audioCam] at h
    rw [build_segment_4k_durationForPct, build_segment_4k_cmd, h, if_pos rfl]
    refine ⟨segment4kBaseCmd cams,
      ["-filter_complex",
        segment4kFiltergraph (build_overlay_filter_dynamic env folderName),
        "-map", "[vout]"] ++ audioMapArgs none ++ segment4kTailArgs outSeg, ?_⟩
    simp [List.append_assoc]

/-- Concrete-input witness for `duration_estimation`: back camera has the
shortest usable duration (60 s vs 90 s, one probe failing, one reporting 0),
and a front file whose probe fails falls back to 60 s. -/
theorem duration_estimation_witness :
    (build_segment_4k (fun _ => AudioProbe.ok true)
        (fun p => if p = "f.mp4" then DurationProbe.ok 90
          else if p = "b.mp4" then DurationProbe.ok 60
          else if p = "l.mp4" then DurationProbe.fail
          else DurationProbe.ok 0)
        ⟨none, []⟩ "2025-11-17_14-25-37"
        (fun c => match c with
          | Cam.front => "f.mp4"
          | Cam.back => "b.mp4"
          | Cam.left => "l.mp4"
          | Cam.right => "r.mp4") "o.mp4").durationForPct ≤ 60 ∧
    (build_segment_front (fun _ => AudioProbe.ok true) (fun _ => DurationProbe.fail)
        ⟨none, []⟩ "2025-11-17_14-25-37" "f.mp4" "o.mp4").durationForPct = 60 := by
  constructor
  · exact (duration_estimation (fun _ => AudioProbe.ok true)
      (fun p => if p = "f.mp4" then DurationProbe.ok 90
        else if p = "b.mp4" then DurationProbe.ok 60
        else if p = "l.mp4" then DurationProbe.fail
        else DurationProbe.ok 0)
      ⟨none, []⟩ "2025-11-17_14-25-37"
      (fun c => match c with
        | Cam.front => "f.mp4"
        | Cam.back => "b.mp4"
        | Cam.left => "l.mp4"
        | Cam.right => "r.mp4") "o.mp4" "f.mp4").1 Cam.back 60 (by decide) (by decide)
  · exact (duration_estimation (fun _ => AudioProbe.ok true)
      (fun _ => DurationProbe.fail) ⟨none, []⟩ "2025-11-17_14-25-37"
      (fun _ => "x.mp4") "o.mp4" "f.mp4").2.2.2.2.1 rfl

/-- Counterexample to Claim C3: a segment whose four camera files all fail
to probe (audio probe and duration probe both fail on every file) is not
failed loudly — the job is still built, with silent audio and the 60 s
fallback duration, and when the encoder then exits 0 the whole run
completes with no propagated error. -/
theorem probe_failure_fatal_counterexample :
    build_segment_4k_run (fun _ => AudioProbe.fail) (fun _ => DurationProbe.fail)
        ⟨none, []⟩ "2025-11-17_14-25-37" (fun _ => "cam.mp4") "out.mp4"
        (fun _ => 0) = Except.ok 0 ∧
    (build_segment_4k (fun _ => AudioProbe.fail) (fun _ => DurationProbe.fail)
        ⟨none, []⟩ "2025-11-17_14-25-37" (fun _ => "cam.mp4") "out.mp4").audioCam =
      none ∧
    (build_segment_4k (fun _ => AudioProbe.fail) (fun _ => DurationProbe.fail)
        ⟨none, []⟩ "2025-11-17_14-25-37" (fun _ => "cam.mp4") "out.mp4").segDur =
      60 := by
  refine ⟨?_, rfl, rfl⟩
  rw [build_segment_4k_run]
  simp [run_live_exit]

/-- Claim C3 (amended): for every feasible segment, a probing failure on the
required camera files never fails the build: with every probe failing, the
job is still constructed — the audio donor degrades to synthesized silence
and the duration to the fixed 60 s fallback — and the run succeeds whenever
the encoder itself succeeds; no error distinct from the encoder's is
propagated. -/
theorem probe_failure_degrades (audioProbe : String → AudioProbe)
    (durProbe : String → DurationProbe) (env : FsEnv) (folderName : String)
    (cams : Cam → String) (outSeg : String) (encoderExit : List String → Int)
    (ha : ∀ p, audioProbe p = AudioProbe.fail)
    (hd : ∀ p, durProbe p = DurationProbe.fail) :
    (build_segment_4k audioProbe durProbe env folderName cams outSeg).audioCam =
      none ∧
    (build_segment_4k audioProbe durProbe env folderName cams outSeg).segDur = 60 ∧
    (encoderExit (build_segment_4k audioProbe durProbe env folderName cams
        outSeg).cmd = 0 →
      build_segment_4k_run audioProbe durProbe env folderName cams outSeg
        encoderExit = Except.ok 0) := by
  refine ⟨?_, ?_, ?_⟩
  · rw [build_segment_4k_audioCam, pick_audio_eq]
    simp [ha, ffprobe_has_audio]
  · rw [build_segment_4k_segDur, segDur4k]
    have hnil : camDurations durProbe cams = [] := by
      rw [List.eq_nil_iff_forall_not_mem]
      intro x hx
      obtain ⟨c, hc, -⟩ := mem_camDurations.mp hx
      rw [hd (cams c)] at hc
      exact Option.noConfusion (hc ▸ rfl : (none : Option ℚ) = some x)
    rw [hnil]
    rfl
  · intro h
    rw [build_segment_4k_run, h]
    simp [run_live_exit]

/-- Concrete-input witness for `probe_failure_degrades`. -/
theorem probe_failure_degrades_witness :
    (build_segment_4k (fun _ => AudioProbe.fail) (fun _ => DurationProbe.fail)
        ⟨none, []⟩ "2025-11-17_14-25-37" (fun _ => "c.mp4") "o.mp4").segDur = 60 :=
  (probe_failure_degrades (fun _ => AudioProbe.fail) (fun _ => DurationProbe.fail)
    ⟨none, []⟩ "2025-11-17_14-25-37" (fun _ => "c.mp4") "o.mp4" (fun _ => 0)
    (fun _ => rfl) (fun _ => rfl)).2.1

/-- Counterexample to Claim C8 as stated: with the input triple fixed
(folder timestamp `2025-11-17_14-25-37`, the constant shift and frame rate),
two runs that resolve the font environment differently (one finds
`arial.ttf`, one finds no font) produce different overlay bytes — the
generated expression is not a function of the triple alone. -/
theorem overlay_determinism_counterexample :
    build_overlay_filter_dynamic ⟨none, ["C:\\Windows\\Fonts\\arial.ttf"]⟩
        "2025-11-17_14-25-37" ≠
      build_overlay_filter_dynamic ⟨none, []⟩ "2025-11-17_14-25-37" := by
  decide

/-- Claim C8 (amended): for every fixed input triple and folder name, the
overlay expression produced by `build_overlay_filter_dynamic` is
byte-identical across any two runs that resolve the same font file — the
generated text is a pure function of the folder-name timestamp, the
constant shift and frame rate, and the `pick_windows_fontfile` result. -/
theorem overlay_determinism (env1 env2 : FsEnv) (folderName : String)
    (hfont : pick_windows_fontfile env1 = pick_windows_fontfile env2) :
    build_overlay_filter_dynamic env1 folderName =
      build_overlay_filter_dynamic env2 folderName := by
  rw [build_overlay_filter_dynamic, build_overlay_filter_dynamic,
    overlayFilterDynamic, overlayFilterDynamic, hfont]

/-- Concrete-input witness for `overlay_determinism`: two structurally
different environments (an unrelated existing file vs. a different
`WINDIR` with no fonts) resolve to no font and generate identical bytes. -/
theorem overlay_determinism_witness :
    build_overlay_filter_dynamic ⟨none, ["C:\\notes.txt"]⟩ "2025-11-17_14-25-37" =
      build_overlay_filter_dynamic ⟨some "D:\\W", []⟩ "2025-11-17_14-25-37" :=
  overlay_determinism ⟨none, ["C:\\notes.txt"]⟩ ⟨some "D:\\W", []⟩
    "2025-11-17_14-25-37" (by decide)

/-! ### `main`: build-or-reuse of existing segment outputs -/

/-- File-system state of one segment's output path as observed by `main`
(`out_seg.exists()` and `out_seg.stat().st_size`). -/
structure SegOutputState where
  outExists : Bool
  size : Nat
deriving DecidableEq

/-- The reuse condition of `main` (video script line 810, front script
line 635): `SKIP_EXISTING_SEGMENTS and out_seg.exists() and
out_seg.stat().st_size > 0`. -/
def reuse_decision (skipExisting : Bool) (st : SegOutputState) : Bool :=
  skipExisting && st.outExists && decide (0 < st.size)

/-- What `main` does with one segment. -/
inductive SegAction where
  | reuse
  | build
deriving DecidableEq

/-- The build-or-reuse loop of `main` over one date's complete segments:
each segment is either reused or re-encoded according to `reuse_decision`,
and in both cases its output path is appended to the date's manifest list. -/
def processSegments (skipExisting : Bool) :
    List (String × SegOutputState) → List (String × SegAction) × List String
  | [] => ([], [])
  | (p, st) :: rest =>
    let r := processSegments skipExisting rest
    if reuse_decision skipExisting st then
      ((p, SegAction.reuse) :: r.1, p :: r.2)
    else
      ((p, SegAction.build) :: r.1, p :: r.2)

/-- Claim C10: with the skip-existing flag enabled, a segment is reused
(rather than re-encoded) exactly when its output exists with size strictly
greater than zero — an existing zero-byte output is re-encoded — and in
either case the segment's output path enters the date's manifest in order. -/
theorem skip_existing_reuse (skipExisting : Bool)
    (segs : List (String × SegOutputState)) :
    (processSegments skipExisting segs).1 =
      segs.map (fun q => (q.1,
        if reuse_decision skipExisting q.2 then SegAction.reuse
        else SegAction.build)) ∧
    (processSegments skipExisting segs).2 = segs.map Prod.fst ∧
    (∀ st : SegOutputState, reuse_decision skipExisting st = true ↔
      skipExisting = true ∧ st.outExists = true ∧ 0 < st.size) ∧
    (∀ st : SegOutputState, st.size = 0 → reuse_decision skipExisting st = false) := by
  refine ⟨?_, ?_, ?_, ?_⟩
  · induction segs with
    | nil => rfl
    | cons q rest ih =>
      obtain ⟨p, st⟩ := q
      rw [processSegments]
      by_cases h : reuse_decision skipExisting st
      · simp [h, ih]
      · simp [h, ih]
  · induction segs with
    | nil => rfl
    | cons q rest ih =>
      obtain ⟨p, st⟩ := q
      rw [processSegments]
      by_cases h : reuse_decision skipExisting st
      · simp [h, ih]
      · simp [h, ih]
  · intro st
    rw [reuse_decision]
    simp [Bool.and_eq_true, decide_eq_true_iff, and_assoc]
  · intro st h
    rw [reuse_decision, h]
    simp

/-- Concrete-input witness for `skip_existing_reuse`: with the flag on, an
existing zero-byte output is rebuilt while an existing 1024-byte output is
reused. -/
theorem skip_existing_reuse_witness :
    reuse_decision true ⟨true, 0⟩ = false ∧ reuse_decision true ⟨true, 1024⟩ = true := by
  refine ⟨(skip_existing_reuse true []).2.2.2 ⟨true, 0⟩ rfl, ?_⟩
  exact ((skip_existing_reuse true []).2.2.1 ⟨true, 1024⟩).mpr
    ⟨rfl, rfl, by decide⟩

end Voyah
